import Mathlib

/-!
Verification of the DistributedForCS2026 `project1` P2P node core.

The development shallowly embeds the Python sources:
  * `protocol.py`   — the eight message builders and the JSON wire codec
                      (`encode` = `json.dumps`, `decode` = `json.loads`,
                      default separators `", "` / `": "`, `ensure_ascii`);
  * `algorithms/gossip.py`, `heartbeat.py`, `choking.py`, `reputation.py`
                      — the peer-table dataclasses and their implemented
                      accessor methods;
  * `node.py`       — the wired message dispatcher `handle_message` and the
                      acknowledgement discipline of the `run` loop.

Python `float` results of exact formulas are modelled by rationals (`ℚ`).
A Python float travelling over the wire is modelled by its shortest-`repr`
decimal literal (an integer mantissa and a base-ten fraction length), which
is a faithful quotient for the finite fixed-point range the protocol uses;
non-finite floats and exponent-notation literals are outside the model.
-/

namespace P2P

/-! ### Decimal digits: printing and reading natural numbers

Mirrors the decimal rendering used by Python `str(int)` / `repr(float)`
and the digit scanning done by `json.loads`. -/

def dchar (n : Nat) : Char := Char.ofNat (48 + n)

def isDigitC (c : Char) : Bool := decide (48 ≤ c.toNat) && decide (c.toNat ≤ 57)

def digitVal (c : Char) : Nat := c.toNat - 48

/-- Decimal digits of `n`, most significant first (fuel-driven). -/
def natCharsAux : Nat → Nat → List Char
  | 0, _ => []
  | f + 1, n => if n < 10 then [dchar n] else natCharsAux f (n / 10) ++ [dchar (n % 10)]

def natChars (n : Nat) : List Char := natCharsAux (n + 1) n

theorem natCharsAux_fuel_eq (f g n : Nat) (hf : n < f) (hg : n < g) :
    natCharsAux f n = natCharsAux g n := by
  induction n using Nat.strong_induction_on generalizing f g with
  | _ n ih =>
    match f, g with
    | f' + 1, g' + 1 =>
      by_cases h : n < 10
      · simp [natCharsAux, h]
      · have hd : n / 10 < n := Nat.div_lt_self (by omega) (by omega)
        simp only [natCharsAux, h, if_false]
        rw [ih (n / 10) hd (f := f') (g := g') (by omega) (by omega)]

theorem natChars_eq (n : Nat) (h : ¬ n < 10) :
    natChars n = natChars (n / 10) ++ [dchar (n % 10)] := by
  have hd : n / 10 < n := Nat.div_lt_self (by omega) (by omega)
  show natCharsAux (n + 1) n = natCharsAux (n / 10 + 1) (n / 10) ++ [dchar (n % 10)]
  have h1 : natCharsAux (n + 1) n = natCharsAux n (n / 10) ++ [dchar (n % 10)] := by
    rw [natCharsAux]
    simp [h]
  rw [h1, natCharsAux_fuel_eq n (n / 10 + 1) (n / 10) (by omega) (by omega)]

theorem natChars_small (n : Nat) (h : n < 10) : natChars n = [dchar n] := by
  simp [natChars, natCharsAux, h]

theorem dchar_isDigit (n : Nat) (h : n < 10) : isDigitC (dchar n) = true := by
  revert h
  revert n
  decide

theorem digitVal_dchar (n : Nat) (h : n < 10) : digitVal (dchar n) = n := by
  revert h
  revert n
  decide

theorem natChars_all_digits (n : Nat) : ∀ c ∈ natChars n, isDigitC c = true := by
  induction n using Nat.strong_induction_on with
  | _ n ih =>
    by_cases h : n < 10
    · rw [natChars_small n h]
      intro c hc
      rw [List.mem_singleton] at hc
      subst hc
      exact dchar_isDigit n h
    · rw [natChars_eq n h]
      intro c hc
      rcases List.mem_append.mp hc with h1 | h2
      · exact ih (n / 10) (Nat.div_lt_self (by omega) (by omega)) c h1
      · rw [List.mem_singleton] at h2
        subst h2
        exact dchar_isDigit (n % 10) (Nat.mod_lt n (by omega))

theorem natChars_ne_nil (n : Nat) : natChars n ≠ [] := by
  by_cases h : n < 10
  · rw [natChars_small n h]
    simp
  · rw [natChars_eq n h]
    simp

theorem natChars_length_le (n k : Nat) (hk : 1 ≤ k) (h : n < 10 ^ k) :
    (natChars n).length ≤ k := by
  induction n using Nat.strong_induction_on generalizing k with
  | _ n ih =>
    by_cases hs : n < 10
    · rw [natChars_small n hs]
      simpa using hk
    · rw [natChars_eq n hs]
      match k with
      | 0 => omega
      | k' + 1 =>
        have hd : n / 10 < 10 ^ k' := by
          have := Nat.pow_succ 10 k'
          omega
        have hk' : 1 ≤ k' := by
          by_contra hc
          have : k' = 0 := by omega
          subst this
          simp at hd
          omega
        have := ih (n / 10) (Nat.div_lt_self (by omega) (by omega)) k' hk' hd
        simp only [List.length_append, List.length_singleton]
        omega

/-- Accumulating decimal value of a digit list, as the scanner reads it. -/
def digitsValFrom (a : Nat) (ds : List Char) : Nat :=
  ds.foldl (fun x c => x * 10 + digitVal c) a

def digitsVal (ds : List Char) : Nat := digitsValFrom 0 ds

theorem digitsValFrom_append (a : Nat) (xs ys : List Char) :
    digitsValFrom a (xs ++ ys) = digitsValFrom (digitsValFrom a xs) ys := by
  simp [digitsValFrom, List.foldl_append]

theorem digitsValFrom_natChars (a n : Nat) :
    digitsValFrom a (natChars n) = a * 10 ^ (natChars n).length + n := by
  induction n using Nat.strong_induction_on generalizing a with
  | _ n ih =>
    by_cases h : n < 10
    · rw [natChars_small n h]
      simp [digitsValFrom, digitVal_dchar n h, pow_succ]
    · rw [natChars_eq n h]
      rw [digitsValFrom_append]
      rw [ih (n / 10) (Nat.div_lt_self (by omega) (by omega)) a]
      simp only [digitsValFrom, List.foldl_cons, List.foldl_nil, List.length_append,
        List.length_singleton]
      rw [digitVal_dchar (n % 10) (Nat.mod_lt n (by omega))]
      have hn : n / 10 * 10 + n % 10 = n := by omega
      calc (a * 10 ^ (natChars (n / 10)).length + n / 10) * 10 + n % 10
          = a * (10 ^ (natChars (n / 10)).length * 10) + (n / 10 * 10 + n % 10) := by ring
        _ = a * 10 ^ ((natChars (n / 10)).length + 1) + n := by rw [hn, pow_succ]

theorem digitsVal_natChars (n : Nat) : digitsVal (natChars n) = n := by
  have := digitsValFrom_natChars 0 n
  simpa [digitsVal] using this

theorem digitsValFrom_zeros (a : Nat) (z : Nat) :
    digitsValFrom a (List.replicate z '0') = a * 10 ^ z := by
  induction z generalizing a with
  | zero => simp [digitsValFrom]
  | succ z' ih =>
    rw [List.replicate_succ]
    simp only [digitsValFrom, List.foldl_cons] at *
    rw [ih]
    have : digitVal '0' = 0 := by decide
    rw [this]
    ring

theorem takeWhile_all_append (p : Char → Bool) (xs ys : List Char)
    (h : ∀ c ∈ xs, p c = true) :
    (xs ++ ys).takeWhile p = xs ++ ys.takeWhile p ∧
      (xs ++ ys).dropWhile p = ys.dropWhile p := by
  induction xs with
  | nil => simp
  | cons x xs' ih =>
    have hx : p x = true := h x (by simp)
    have ih' := ih (fun c hc => h c (by simp [hc]))
    simp [List.takeWhile_cons, List.dropWhile_cons, hx, ih'.1, ih'.2]

/-! ### The JSON value fragment used on the wire

`protocol.encode` is `json.dumps(msg)` and `protocol.decode` is
`json.loads(body)` (`protocol.py` lines 52–59).  The values that ever reach
them are built from strings, ints, floats, lists, dicts, booleans and null,
so the codec is embedded on that fragment.  A float is represented by its
shortest-`repr` decimal literal: mantissa `m` and fraction length `e`
standing for `m / 10^e` (Python's `repr` of a finite float in the
fixed-point range prints exactly such a literal, with at least one
fractional digit). -/

inductive JVal where
  | str (s : String)
  | int (n : Int)
  | dec (m : Int) (e : Nat)
  | bool (b : Bool)
  | null
  | arr (xs : List JVal)
  | obj (fs : List (String × JVal))
deriving Inhabited, Repr, BEq

/-- Python `==` between a decoded JSON value and a `str` constant, as used
by the dispatcher in `node.py` (`sender == self.node_id`,
`handlers.get(msg_type)`): true only for an equal string. -/
def JVal.eqStr : JVal → String → Bool
  | .str s, t => s == t
  | _, _ => false

/-! #### Encoder (`json.dumps`, default options)

Default `json.dumps`: `ensure_ascii=True`, separators `", "` and `": "`.
Characters `0x20`–`0x7e` other than `"` and `\` are emitted literally;
`\b \t \n \f \r` use their short escapes; every other character becomes
`\uXXXX` (lowercase hex), with a surrogate pair for code points beyond
the basic multilingual plane. -/

def hexChar (n : Nat) : Char := if n < 10 then dchar n else Char.ofNat (87 + n)

def hex4 (n : Nat) : List Char :=
  [hexChar (n / 4096 % 16), hexChar (n / 256 % 16), hexChar (n / 16 % 16), hexChar (n % 16)]

def escapeChar (c : Char) : List Char :=
  if c.toNat = 34 then ['\\', '"']
  else if c.toNat = 92 then ['\\', '\\']
  else if c.toNat = 8 then ['\\', 'b']
  else if c.toNat = 9 then ['\\', 't']
  else if c.toNat = 10 then ['\\', 'n']
  else if c.toNat = 12 then ['\\', 'f']
  else if c.toNat = 13 then ['\\', 'r']
  else if c.toNat < 32 then '\\' :: 'u' :: hex4 c.toNat
  else if c.toNat < 127 then [c]
  else if c.toNat < 65536 then '\\' :: 'u' :: hex4 c.toNat
  else
    ('\\' :: 'u' :: hex4 (55296 + (c.toNat - 65536) / 1024)) ++
      ('\\' :: 'u' :: hex4 (56320 + (c.toNat - 65536) % 1024))

def escapeList : List Char → List Char
  | [] => []
  | c :: cs => escapeChar c ++ escapeList cs

/-- A serialized JSON string: quote, escaped body, quote. -/
def strChars (s : String) : List Char := '"' :: escapeList s.data ++ ['"']

/-- Python `str(int)`: optional minus sign, then decimal digits. -/
def intChars (n : Int) : List Char :=
  if n < 0 then '-' :: natChars n.natAbs else natChars n.natAbs

/-- `repr` of a finite float in the fixed-point range: optional sign,
integer part, `'.'`, then exactly `e` fraction digits (zero padded). -/
def decChars (m : Int) (e : Nat) : List Char :=
  let a := m.natAbs
  let frac := natChars (a % 10 ^ e)
  (if m < 0 then ['-'] else []) ++ natChars (a / 10 ^ e) ++
    '.' :: (List.replicate (e - frac.length) '0' ++ frac)

mutual

def encVal : JVal → List Char
  | .str s => strChars s
  | .int n => intChars n
  | .dec m e => decChars m e
  | .bool b => if b then ['t', 'r', 'u', 'e'] else ['f', 'a', 'l', 's', 'e']
  | .null => ['n', 'u', 'l', 'l']
  | .arr xs => '[' :: encItems xs
  | .obj fs => '{' :: encMembers fs

/-- Array elements joined by `", "`, closed by `]` (empty array: `[]`). -/
def encItems : List JVal → List Char
  | [] => [']']
  | [x] => encVal x ++ [']']
  | x :: y :: xs => encVal x ++ ',' :: ' ' :: encItems (y :: xs)

/-- Object members `"key": value` joined by `", "`, closed by `}`. -/
def encMembers : List (String × JVal) → List Char
  | [] => ['}']
  | [kv] => strChars kv.1 ++ ':' :: ' ' :: encVal kv.2 ++ ['}']
  | kv :: kv' :: fs =>
      strChars kv.1 ++ ':' :: ' ' :: encVal kv.2 ++ ',' :: ' ' :: encMembers (kv' :: fs)

end

/-- `protocol.encode`: serialize a message value to a JSON string. -/
def encode (v : JVal) : String := String.mk (encVal v)

/-! #### Decoder (`json.loads`)

A recursive-descent scanner following CPython's `json.scanner`: JSON
whitespace is `' '`, `'\t'`, `'\n'`, `'\r'`; strings accept the short
escapes, `\uXXXX` with either hex case, and combine surrogate pairs;
unescaped control characters are rejected (`strict=True`).  Number tokens
are read into the decimal float model and normalized, mirroring that
Python floats are canonical; lone surrogates and exponent-notation floats
fall outside the embedded fragment and are rejected. -/

def isWs (c : Char) : Bool :=
  decide (c.toNat = 32) || decide (c.toNat = 9) || decide (c.toNat = 10) ||
    decide (c.toNat = 13)

def skipWs (cs : List Char) : List Char := cs.dropWhile isWs

def hexVal (c : Char) : Option Nat :=
  if 48 ≤ c.toNat ∧ c.toNat ≤ 57 then some (c.toNat - 48)
  else if 97 ≤ c.toNat ∧ c.toNat ≤ 102 then some (c.toNat - 87)
  else if 65 ≤ c.toNat ∧ c.toNat ≤ 70 then some (c.toNat - 55)
  else none

def hex4Val : List Char → Option (Nat × List Char)
  | a :: b :: c :: d :: rest =>
    match hexVal a, hexVal b, hexVal c, hexVal d with
    | some x, some y, some z, some w => some (x * 4096 + y * 256 + z * 16 + w, rest)
    | _, _, _, _ => none
  | _ => none

/-- Outcome of reading one backslash escape: the decoded character and the
remaining input, or a scan error. -/
inductive EscStep where
  | emit (d : Char) (rest : List Char)
  | bad

/-- Second half of a surrogate pair: expect `\uXXXX` with a low surrogate
and combine it with the high surrogate `h`. -/
def readUPair (h : Nat) (cs2 : List Char) : EscStep :=
  match cs2 with
  | b2 :: u2 :: cs3 =>
    if b2.toNat = 92 ∧ u2 = 'u' then
      match hex4Val cs3 with
      | none => .bad
      | some (l, cs4) =>
        if 56320 ≤ l ∧ l < 57344 then
          .emit (Char.ofNat (65536 + (h - 55296) * 1024 + (l - 56320))) cs4
        else .bad
    else .bad
  | _ => .bad

/-- Interpret the result of scanning four hex digits: a high surrogate
continues into `readUPair`, a lone low surrogate is rejected, anything
else is the decoded character. -/
def readU2 : Option (Nat × List Char) → EscStep
  | none => .bad
  | some (h, cs2) =>
    if 55296 ≤ h ∧ h < 56320 then readUPair h cs2
    else if 56320 ≤ h ∧ h < 57344 then .bad
    else .emit (Char.ofNat h) cs2

/-- A `\u` escape: four hex digits, possibly followed by a low-surrogate
escape when the first four name a high surrogate. -/
def readU (cs1 : List Char) : EscStep := readU2 (hex4Val cs1)

/-- Decode one escape sequence (the part after the backslash): the short
escapes, `\uXXXX` with either hex case, surrogate-pair combination. -/
def readEsc (cs : List Char) : EscStep :=
  match cs with
  | [] => .bad
  | e :: cs1 =>
    if e.toNat = 34 ∨ e.toNat = 92 ∨ e.toNat = 47 then .emit e cs1
    else if e = 'b' then .emit (Char.ofNat 8) cs1
    else if e = 't' then .emit (Char.ofNat 9) cs1
    else if e = 'n' then .emit (Char.ofNat 10) cs1
    else if e = 'f' then .emit (Char.ofNat 12) cs1
    else if e = 'r' then .emit (Char.ofNat 13) cs1
    else if e = 'u' then readU cs1
    else .bad

/-- Scan a JSON string body after the opening quote; returns the decoded
characters and the input following the closing quote. -/
def parseStrBody : Nat → List Char → Option (List Char × List Char)
  | 0, _ => none
  | _ + 1, [] => none
  | f + 1, c :: cs =>
    if c.toNat = 34 then some ([], cs)
    else if c.toNat = 92 then
      match readEsc cs with
      | .emit d rest => (parseStrBody f rest).map (fun p => (d :: p.1, p.2))
      | .bad => none
    else if c.toNat < 32 then none
    else (parseStrBody f cs).map (fun p => (c :: p.1, p.2))

/-- Strip trailing zero fraction digits, keeping at least one
(canonicalizes a parsed decimal to the float model's representative). -/
def normDecAux : Nat → Nat → Nat → Nat × Nat
  | 0, a, e => (a, e)
  | f + 1, a, e => if 1 < e ∧ a % 10 = 0 then normDecAux f (a / 10) (e - 1) else (a, e)

/-- Scan the digits-and-fraction part of a number token (after an optional
leading minus has been consumed); `neg` records the sign. -/
def parseNumCore (neg : Bool) (cs1 : List Char) : Option (JVal × List Char) :=
  let ds := cs1.takeWhile isDigitC
  let r1 := cs1.dropWhile isDigitC
  if ds = [] then none
  else if r1.head? = some '.' then
    let r2 := r1.tail
    let fs := r2.takeWhile isDigitC
    let r3 := r2.dropWhile isDigitC
    if fs = [] then none
    else
      let a := digitsVal ds * 10 ^ fs.length + digitsVal fs
      let p := normDecAux fs.length a fs.length
      some (.dec (if neg then -(p.1 : Int) else (p.1 : Int)) p.2, r3)
  else some (.int (if neg then -(digitsVal ds : Int) else (digitsVal ds : Int)), r1)

/-- Scan a number token: optional minus, digits, optional fraction. -/
def parseNum (cs : List Char) : Option (JVal × List Char) :=
  if cs.head? = some '-' then parseNumCore true cs.tail else parseNumCore false cs

mutual

def parseVal : Nat → List Char → Option (JVal × List Char)
  | 0, _ => none
  | f + 1, cs => parseValCore f (skipWs cs)
termination_by fuel _cs => (fuel, 0)

/-- Dispatch on the first significant character of a value. -/
def parseValCore : Nat → List Char → Option (JVal × List Char)
  | _, [] => none
  | f, c :: cs1 =>
    if c.toNat = 34 then
      (parseStrBody (cs1.length + 1) cs1).map (fun p => (.str (String.mk p.1), p.2))
    else if c = '[' then (parseItems f cs1).map (fun p => (.arr p.1, p.2))
    else if c = '{' then (parseMembers f cs1).map (fun p => (.obj p.1, p.2))
    else if c = 't' then
      match cs1 with
      | 'r' :: 'u' :: 'e' :: r => some (.bool true, r)
      | _ => none
    else if c = 'f' then
      match cs1 with
      | 'a' :: 'l' :: 's' :: 'e' :: r => some (.bool false, r)
      | _ => none
    else if c = 'n' then
      match cs1 with
      | 'u' :: 'l' :: 'l' :: r => some (.null, r)
      | _ => none
    else parseNum (c :: cs1)
termination_by fuel _cs => (fuel, 14)

def parseItems : Nat → List Char → Option (List JVal × List Char)
  | f, cs => parseItemsCore f (skipWs cs)
termination_by fuel _cs => (fuel, 12)

/-- Array body: `]` closes, otherwise an element then the separator loop. -/
def parseItemsCore : Nat → List Char → Option (List JVal × List Char)
  | _, [] => none
  | f, c :: cs1 =>
    if c = ']' then some ([], cs1)
    else
      (parseVal f (c :: cs1)).bind (fun p =>
        (parseItemsTail f p.2).map (fun q => (p.1 :: q.1, q.2)))
termination_by fuel _cs => (fuel, 10)

def parseItemsTail : Nat → List Char → Option (List JVal × List Char)
  | 0, _ => none
  | g + 1, cs => parseItemsTailCore g (skipWs cs)
termination_by fuel _cs => (fuel, 2)

/-- Separator loop of an array: `]` closes, `,` continues with an element. -/
def parseItemsTailCore : Nat → List Char → Option (List JVal × List Char)
  | _, [] => none
  | g, c :: cs1 =>
    if c = ']' then some ([], cs1)
    else if c = ',' then
      (parseVal g cs1).bind (fun p =>
        (parseItemsTail g p.2).map (fun q => (p.1 :: q.1, q.2)))
    else none
termination_by fuel _cs => (fuel, 8)

def parseMembers : Nat → List Char → Option (List (String × JVal) × List Char)
  | f, cs => parseMembersCore f (skipWs cs)
termination_by fuel _cs => (fuel, 12)

/-- Object body: `}` closes, otherwise a `"key": value` member. -/
def parseMembersCore : Nat → List Char → Option (List (String × JVal) × List Char)
  | _, [] => none
  | f, c :: cs1 =>
    if c = '}' then some ([], cs1)
    else if c.toNat = 34 then
      (parseStrBody (cs1.length + 1) cs1).bind (fun k =>
        parseMemberVal f (String.mk k.1) (skipWs k.2))
    else none
termination_by fuel _cs => (fuel, 10)

/-- After a member key: expect `:`, a value, then the separator loop. -/
def parseMemberVal : Nat → String → List Char → Option (List (String × JVal) × List Char)
  | _, _, [] => none
  | f, key, c :: r2 =>
    if c = ':' then
      (parseVal f r2).bind (fun p =>
        (parseMembersTail f p.2).map (fun q => ((key, p.1) :: q.1, q.2)))
    else none
termination_by fuel _key _cs => (fuel, 4)

def parseMembersTail : Nat → List Char → Option (List (String × JVal) × List Char)
  | 0, _ => none
  | g + 1, cs => parseMembersTailCore g (skipWs cs)
termination_by fuel _cs => (fuel, 2)

/-- Separator loop of an object: `}` closes, `,` continues with a member. -/
def parseMembersTailCore : Nat → List Char → Option (List (String × JVal) × List Char)
  | _, [] => none
  | g, c :: cs1 =>
    if c = '}' then some ([], cs1)
    else if c = ',' then parseMemberKey g (skipWs cs1)
    else none
termination_by fuel _cs => (fuel, 8)

/-- A member after a comma: expect a quoted key. -/
def parseMemberKey : Nat → List Char → Option (List (String × JVal) × List Char)
  | _, [] => none
  | g, c :: cs2 =>
    if c.toNat = 34 then
      (parseStrBody (cs2.length + 1) cs2).bind (fun k =>
        parseMemberVal g (String.mk k.1) (skipWs k.2))
    else none
termination_by fuel _cs => (fuel, 6)

end

/-- Reject trailing non-whitespace after the top-level value
(`json.loads` raises "Extra data"). -/
def decodeFinish : Option (JVal × List Char) → Option JVal
  | some (v, rest) => if skipWs rest = [] then some v else none
  | none => none

/-- `protocol.decode`: deserialize a JSON string back to a message value. -/
def decode (s : String) : Option JVal :=
  decodeFinish (parseVal (s.length + 1) s.data)

/-! #### Round trip: scanning what the serializer wrote gives the value back -/

theorem toNat_ofNat_valid (n : Nat) (h : n.isValidChar) : (Char.ofNat n).toNat = n := by
  simp only [Char.ofNat, h, dite_true, Char.ofNatAux]
  rfl

theorem ofNat_toNat_char (c : Char) : Char.ofNat c.toNat = c := by
  rcases c with ⟨val, valid⟩
  have h : (Char.toNat ⟨val, valid⟩).isValidChar := valid
  apply Char.ext
  simp only [Char.ofNat, h, dite_true, Char.ofNatAux]
  apply UInt32.ext
  simp only [UInt32.toNat]
  rfl

theorem char_valid_nat (c : Char) :
    c.toNat < 55296 ∨ (57343 < c.toNat ∧ c.toNat < 1114112) := by
  have h := c.valid
  unfold UInt32.isValidChar Nat.isValidChar at h
  exact h

theorem hexVal_hexChar (n : Nat) (h : n < 16) : hexVal (hexChar n) = some n := by
  revert h
  revert n
  decide

theorem hex4Val_hex4 (n : Nat) (h : n < 65536) (rest : List Char) :
    hex4Val (hex4 n ++ rest) = some (n, rest) := by
  show hex4Val (hexChar (n / 4096 % 16) :: hexChar (n / 256 % 16) :: hexChar (n / 16 % 16) ::
    hexChar (n % 16) :: rest) = some (n, rest)
  have harith : n / 4096 % 16 * 4096 + n / 256 % 16 * 256 + n / 16 % 16 * 16 + n % 16 = n := by
    omega
  rw [show ∀ (a b c d : Char) (r : List Char), hex4Val (a :: b :: c :: d :: r) =
      (match hexVal a, hexVal b, hexVal c, hexVal d with
      | some x, some y, some z, some w => some (x * 4096 + y * 256 + z * 16 + w, r)
      | _, _, _, _ => none) from fun _ _ _ _ _ => rfl]
  rw [hexVal_hexChar _ (Nat.mod_lt _ (by omega)), hexVal_hexChar _ (Nat.mod_lt _ (by omega)),
    hexVal_hexChar _ (Nat.mod_lt _ (by omega)), hexVal_hexChar _ (Nat.mod_lt _ (by omega))]
  show some (n / 4096 % 16 * 4096 + n / 256 % 16 * 256 + n / 16 % 16 * 16 + n % 16, rest) =
    some (n, rest)
  rw [harith]

theorem parseStrBody_backslash (f : Nat) (cs tail : List Char) (d : Char)
    (h : readEsc cs = .emit d tail) :
    parseStrBody (f + 1) ('\\' :: cs) =
      (parseStrBody f tail).map (fun p => (d :: p.1, p.2)) := by
  simp only [parseStrBody]
  rw [if_neg (show ¬ (('\\').toNat = 34) from by decide),
    if_pos (show ('\\').toNat = 92 from rfl), h]

theorem readEsc_u (cs1 : List Char) : readEsc ('u' :: cs1) = readU cs1 := rfl

theorem readEsc_u_bmp (v : Nat) (cs : List Char) (hv : v < 65536)
    (hns : v < 55296 ∨ 57343 < v) :
    readEsc ('u' :: (hex4 v ++ cs)) = .emit (Char.ofNat v) cs := by
  have h1 : ¬ (55296 ≤ v ∧ v < 56320) := by omega
  have h2 : ¬ (56320 ≤ v ∧ v < 57344) := by omega
  rw [readEsc_u]
  unfold readU
  rw [hex4Val_hex4 v hv cs]
  simp only [readU2]
  rw [if_neg h1, if_neg h2]

theorem readEsc_u_pair (v : Nat) (cs : List Char) (hlo : 65536 ≤ v) (hhi : v < 1114112) :
    readEsc ('u' :: (hex4 (55296 + (v - 65536) / 1024) ++
      ('\\' :: 'u' :: (hex4 (56320 + (v - 65536) % 1024) ++ cs)))) =
      .emit (Char.ofNat v) cs := by
  have h1 : 55296 ≤ 55296 + (v - 65536) / 1024 ∧ 55296 + (v - 65536) / 1024 < 56320 := by
    omega
  have h2 : 56320 ≤ 56320 + (v - 65536) % 1024 ∧ 56320 + (v - 65536) % 1024 < 57344 := by
    omega
  have harith : 65536 + (55296 + (v - 65536) / 1024 - 55296) * 1024 +
      (56320 + (v - 65536) % 1024 - 56320) = v := by omega
  rw [readEsc_u]
  unfold readU
  rw [hex4Val_hex4 (55296 + (v - 65536) / 1024) (by omega)
    ('\\' :: 'u' :: (hex4 (56320 + (v - 65536) % 1024) ++ cs))]
  simp only [readU2]
  rw [if_pos h1]
  simp only [readUPair]
  rw [if_pos (show ('\\').toNat = 92 ∧ True from ⟨rfl, trivial⟩)]
  rw [hex4Val_hex4 (56320 + (v - 65536) % 1024) (by omega) cs]
  simp only [if_pos h2, harith]

theorem parseStrBody_lit (f : Nat) (c : Char) (cs : List Char)
    (h34 : ¬ c.toNat = 34) (h92 : ¬ c.toNat = 92) (h32 : ¬ c.toNat < 32) :
    parseStrBody (f + 1) (c :: cs) =
      (parseStrBody f cs).map (fun p => (c :: p.1, p.2)) := by
  simp only [parseStrBody]
  rw [if_neg h34, if_neg h92, if_neg h32]

set_option maxHeartbeats 1000000 in
theorem escapeChar_length_pos (c : Char) : 1 ≤ (escapeChar c).length := by
  unfold escapeChar
  split_ifs <;>
    simp only [List.length_cons, List.length_append, List.length_nil] <;> omega

theorem parseStrBody_escape (s : List Char) : ∀ (rest : List Char) (f : Nat),
    (escapeList s).length < f →
    parseStrBody f (escapeList s ++ '"' :: rest) = some (s, rest) := by
  induction s with
  | nil =>
    intro rest f hf
    match f with
    | g + 1 =>
      show parseStrBody (g + 1) ('"' :: rest) = some ([], rest)
      rfl
  | cons c s ih =>
    intro rest f hf
    have hsplit : escapeList (c :: s) = escapeChar c ++ escapeList s := rfl
    rw [hsplit] at hf ⊢
    have hval := char_valid_nat c
    match f with
    | g + 1 =>
    rw [List.length_append] at hf
    rw [List.append_assoc]
    set tail := escapeList s ++ '"' :: rest with htail
    have hlen1 : 1 ≤ (escapeChar c).length := escapeChar_length_pos c
    have hrec : parseStrBody g tail = some (s, rest) := ih rest g (by omega)
    by_cases h34 : c.toNat = 34
    · have hc : '"' = c := by rw [← ofNat_toNat_char c, h34]
      have he : escapeChar c = ['\\', '"'] := by
        unfold escapeChar
        rw [if_pos h34]
      rw [he]
      show parseStrBody (g + 1) ('\\' :: ('"' :: tail)) = some (c :: s, rest)
      rw [parseStrBody_backslash g ('"' :: tail) tail '"' rfl, hrec]
      rw [hc]
      simp
    · by_cases h92 : c.toNat = 92
      · have hc : '\\' = c := by rw [← ofNat_toNat_char c, h92]
        have he : escapeChar c = ['\\', '\\'] := by
          unfold escapeChar
          rw [if_neg h34, if_pos h92]
        rw [he]
        show parseStrBody (g + 1) ('\\' :: ('\\' :: tail)) = some (c :: s, rest)
        rw [parseStrBody_backslash g ('\\' :: tail) tail '\\' rfl, hrec]
        rw [hc]
        simp
      · by_cases h8 : c.toNat = 8
        · have hc : Char.ofNat 8 = c := by rw [← ofNat_toNat_char c, h8]
          have he : escapeChar c = ['\\', 'b'] := by
            unfold escapeChar
            rw [if_neg h34, if_neg h92, if_pos h8]
          rw [he]
          show parseStrBody (g + 1) ('\\' :: ('b' :: tail)) = some (c :: s, rest)
          rw [parseStrBody_backslash g ('b' :: tail) tail (Char.ofNat 8) rfl, hrec]
          rw [hc]
          simp
        · by_cases h9 : c.toNat = 9
          · have hc : Char.ofNat 9 = c := by rw [← ofNat_toNat_char c, h9]
            have he : escapeChar c = ['\\', 't'] := by
              unfold escapeChar
              rw [if_neg h34, if_neg h92, if_neg h8, if_pos h9]
            rw [he]
            show parseStrBody (g + 1) ('\\' :: ('t' :: tail)) = some (c :: s, rest)
            rw [parseStrBody_backslash g ('t' :: tail) tail (Char.ofNat 9) rfl, hrec]
            rw [hc]
            simp
          · by_cases h10 : c.toNat = 10
            · have hc : Char.ofNat 10 = c := by rw [← ofNat_toNat_char c, h10]
              have he : escapeChar c = ['\\', 'n'] := by
                unfold escapeChar
                rw [if_neg h34, if_neg h92, if_neg h8, if_neg h9, if_pos h10]
              rw [he]
              show parseStrBody (g + 1) ('\\' :: ('n' :: tail)) = some (c :: s, rest)
              rw [parseStrBody_backslash g ('n' :: tail) tail (Char.ofNat 10) rfl, hrec]
              rw [hc]
              simp
            · by_cases h12 : c.toNat = 12
              · have hc : Char.ofNat 12 = c := by rw [← ofNat_toNat_char c, h12]
                have he : escapeChar c = ['\\', 'f'] := by
                  unfold escapeChar
                  rw [if_neg h34, if_neg h92, if_neg h8, if_neg h9, if_neg h10, if_pos h12]
                rw [he]
                show parseStrBody (g + 1) ('\\' :: ('f' :: tail)) = some (c :: s, rest)
                rw [parseStrBody_backslash g ('f' :: tail) tail (Char.ofNat 12) rfl, hrec]
                rw [hc]
                simp
              · by_cases h13 : c.toNat = 13
                · have hc : Char.ofNat 13 = c := by rw [← ofNat_toNat_char c, h13]
                  have he : escapeChar c = ['\\', 'r'] := by
                    unfold escapeChar
                    rw [if_neg h34, if_neg h92, if_neg h8, if_neg h9, if_neg h10, if_neg h12,
                      if_pos h13]
                  rw [he]
                  show parseStrBody (g + 1) ('\\' :: ('r' :: tail)) = some (c :: s, rest)
                  rw [parseStrBody_backslash g ('r' :: tail) tail (Char.ofNat 13) rfl, hrec]
                  rw [hc]
                  simp
                · by_cases h32 : c.toNat < 32
                  · have hc : Char.ofNat c.toNat = c := ofNat_toNat_char c
                    have he : escapeChar c = '\\' :: 'u' :: hex4 c.toNat := by
                      unfold escapeChar
                      rw [if_neg h34, if_neg h92, if_neg h8, if_neg h9, if_neg h10, if_neg h12,
                        if_neg h13, if_pos h32]
                    rw [he]
                    show parseStrBody (g + 1) ('\\' :: ('u' :: (hex4 c.toNat ++ tail))) = _
                    rw [parseStrBody_backslash g _ tail (Char.ofNat c.toNat)
                      (readEsc_u_bmp c.toNat tail (by omega) (by omega)), hrec]
                    rw [hc]
                    simp
                  · by_cases h127 : c.toNat < 127
                    · have hc : c :: s = c :: s := rfl
                      have he : escapeChar c = [c] := by
                        unfold escapeChar
                        rw [if_neg h34, if_neg h92, if_neg h8, if_neg h9, if_neg h10, if_neg h12,
                          if_neg h13, if_neg h32, if_pos h127]
                      rw [he]
                      show parseStrBody (g + 1) (c :: tail) = _
                      rw [parseStrBody_lit g c tail h34 h92 h32, hrec]
                      simp
                    · by_cases hbmp : c.toNat < 65536
                      · have hc : Char.ofNat c.toNat = c := ofNat_toNat_char c
                        have he : escapeChar c = '\\' :: 'u' :: hex4 c.toNat := by
                          unfold escapeChar
                          rw [if_neg h34, if_neg h92, if_neg h8, if_neg h9, if_neg h10, if_neg h12,
                            if_neg h13, if_neg h32, if_neg h127, if_pos hbmp]
                        rw [he]
                        show parseStrBody (g + 1) ('\\' :: ('u' :: (hex4 c.toNat ++ tail))) = _
                        rw [parseStrBody_backslash g _ tail (Char.ofNat c.toNat)
                          (readEsc_u_bmp c.toNat tail hbmp (by omega)), hrec]
                        rw [hc]
                        simp
                      · have hc : Char.ofNat c.toNat = c := ofNat_toNat_char c
                        have he : escapeChar c =
                            ('\\' :: 'u' :: hex4 (55296 + (c.toNat - 65536) / 1024)) ++
                              ('\\' :: 'u' :: hex4 (56320 + (c.toNat - 65536) % 1024)) := by
                          unfold escapeChar
                          rw [if_neg h34, if_neg h92, if_neg h8, if_neg h9, if_neg h10, if_neg h12,
                            if_neg h13, if_neg h32, if_neg h127, if_neg hbmp]
                        rw [he]
                        show parseStrBody (g + 1)
                          ('\\' :: ('u' :: (hex4 (55296 + (c.toNat - 65536) / 1024) ++
                            ('\\' :: 'u' :: (hex4 (56320 + (c.toNat - 65536) % 1024) ++ tail))))) = _
                        rw [parseStrBody_backslash g _ tail (Char.ofNat c.toNat)
                          (readEsc_u_pair c.toNat tail (by omega) (by omega)), hrec]
                        rw [hc]
                        simp

/-! #### Number tokens round trip -/

/-- The input after a number token must not extend the token: next char is
neither a digit nor a decimal point (array/object separators, closers, or
end of input). -/
def numStop (cs : List Char) : Prop :=
  ∀ c, cs.head? = some c → isDigitC c = false ∧ c ≠ '.'

/-- Weaker stop: the next character is just not a digit. -/
def digitStop (cs : List Char) : Prop :=
  ∀ c, cs.head? = some c → isDigitC c = false

theorem numStop_digitStop (cs : List Char) (h : numStop cs) : digitStop cs :=
  fun c hc => (h c hc).1

theorem numStop_nil : numStop [] := by
  intro c hc
  simp at hc

theorem numStop_cons (c : Char) (cs : List Char) (h1 : isDigitC c = false)
    (h2 : c ≠ '.') : numStop (c :: cs) := by
  intro d hd
  simp only [List.head?] at hd
  cases hd
  exact ⟨h1, h2⟩

theorem digitStop_cons (c : Char) (cs : List Char) (h1 : isDigitC c = false) :
    digitStop (c :: cs) := by
  intro d hd
  simp only [List.head?] at hd
  cases hd
  exact h1

theorem takeWhile_digits (ds rest : List Char) (hds : ∀ c ∈ ds, isDigitC c = true)
    (h : digitStop rest) :
    (ds ++ rest).takeWhile isDigitC = ds ∧ (ds ++ rest).dropWhile isDigitC = rest := by
  have h1 := takeWhile_all_append isDigitC ds rest hds
  constructor
  · rw [h1.1]
    cases rest with
    | nil => simp
    | cons c r =>
      rw [List.takeWhile_cons, h c rfl]
      simp
  · rw [h1.2]
    cases rest with
    | nil => simp
    | cons c r =>
      rw [List.dropWhile_cons, h c rfl]
      simp

theorem normDecAux_id (f a e : Nat) (h : ¬ (1 < e ∧ a % 10 = 0)) :
    normDecAux f a e = (a, e) := by
  match f with
  | 0 => rfl
  | g + 1 =>
    show (if 1 < e ∧ a % 10 = 0 then normDecAux g (a / 10) (e - 1) else (a, e)) = (a, e)
    rw [if_neg h]

theorem parseNumCore_nat (neg : Bool) (a : Nat) (rest : List Char) (h : numStop rest) :
    parseNumCore neg (natChars a ++ rest) =
      some (.int (if neg then -(a : Int) else (a : Int)), rest) := by
  have ht := takeWhile_digits (natChars a) rest (natChars_all_digits a) (numStop_digitStop rest h)
  have hdot : ¬ (rest.head? = some '.') := by
    cases rest with
    | nil => simp
    | cons c r =>
      simp only [List.head?, Option.some_inj]
      intro hc
      exact (h c rfl).2 hc
  simp only [parseNumCore, ht.1, ht.2]
  rw [if_neg (natChars_ne_nil a), if_neg hdot, digitsVal_natChars]

theorem parseNumCore_dec (neg : Bool) (a e : Nat) (he : 1 ≤ e)
    (hnorm : e = 1 ∨ ¬ a % 10 = 0) (rest : List Char) (h : numStop rest) :
    parseNumCore neg (natChars (a / 10 ^ e) ++
      ('.' :: (List.replicate (e - (natChars (a % 10 ^ e)).length) '0' ++
        (natChars (a % 10 ^ e) ++ rest)))) =
      some (.dec (if neg then -(a : Int) else (a : Int)) e, rest) := by
  have hmod : a % 10 ^ e < 10 ^ e := Nat.mod_lt _ (Nat.pos_pow_of_pos e (by omega))
  have hlen : (natChars (a % 10 ^ e)).length ≤ e := natChars_length_le _ e he hmod
  have hfracd : ∀ c ∈ List.replicate (e - (natChars (a % 10 ^ e)).length) '0' ++
      natChars (a % 10 ^ e), isDigitC c = true := by
    intro c hc
    rcases List.mem_append.mp hc with h1 | h2
    · rw [List.eq_of_mem_replicate h1]
      decide
    · exact natChars_all_digits _ c h2
  have hfrac := takeWhile_digits
    (List.replicate (e - (natChars (a % 10 ^ e)).length) '0' ++ natChars (a % 10 ^ e))
    rest hfracd (numStop_digitStop rest h)
  have hint := takeWhile_digits (natChars (a / 10 ^ e))
    ('.' :: (List.replicate (e - (natChars (a % 10 ^ e)).length) '0' ++
      (natChars (a % 10 ^ e) ++ rest)))
    (natChars_all_digits _) (digitStop_cons '.' _ (by decide))
  have hfrac' : (List.replicate (e - (natChars (a % 10 ^ e)).length) '0' ++
      (natChars (a % 10 ^ e) ++ rest)).takeWhile isDigitC =
        List.replicate (e - (natChars (a % 10 ^ e)).length) '0' ++ natChars (a % 10 ^ e) ∧
      (List.replicate (e - (natChars (a % 10 ^ e)).length) '0' ++
        (natChars (a % 10 ^ e) ++ rest)).dropWhile isDigitC = rest := by
    rw [← List.append_assoc]
    exact hfrac
  have hflen : (List.replicate (e - (natChars (a % 10 ^ e)).length) '0' ++
      natChars (a % 10 ^ e)).length = e := by
    simp only [List.length_append, List.length_replicate]
    omega
  have hfne : ¬ (List.replicate (e - (natChars (a % 10 ^ e)).length) '0' ++
      natChars (a % 10 ^ e) = []) := by
    intro hx
    exact natChars_ne_nil (a % 10 ^ e) (List.append_eq_nil.mp hx).2
  have hfval : digitsVal (List.replicate (e - (natChars (a % 10 ^ e)).length) '0' ++
      natChars (a % 10 ^ e)) = a % 10 ^ e := by
    rw [digitsVal, digitsValFrom_append, digitsValFrom_zeros]
    simp only [Nat.zero_mul]
    exact digitsVal_natChars (a % 10 ^ e)
  have ha : a / 10 ^ e * 10 ^ e + a % 10 ^ e = a := by
    rw [Nat.mul_comm (a / 10 ^ e) (10 ^ e)]
    exact Nat.div_add_mod a (10 ^ e)
  simp only [parseNumCore, hint.1, hint.2]
  rw [if_neg (natChars_ne_nil _)]
  rw [if_pos (show ('.' :: (List.replicate (e - (natChars (a % 10 ^ e)).length) '0' ++
    (natChars (a % 10 ^ e) ++ rest))).head? = some '.' from rfl)]
  simp only [List.tail_cons, hfrac'.1, hfrac'.2]
  rw [if_neg hfne]
  rw [hflen, digitsVal_natChars, hfval, ha]
  rw [normDecAux_id e a e (by rcases hnorm with h1 | h1 <;> omega)]

theorem natChars_cons (n : Nat) : ∃ d t, natChars n = d :: t ∧ isDigitC d = true := by
  cases hc : natChars n with
  | nil => exact absurd hc (natChars_ne_nil n)
  | cons d t =>
    refine ⟨d, t, rfl, natChars_all_digits n d ?_⟩
    rw [hc]
    simp

/-- A digit character is none of the scanner's structural characters. -/
theorem digit_facts (c : Char) (h : isDigitC c = true) :
    ¬ c.toNat = 34 ∧ ¬ c = '[' ∧ ¬ c = '{' ∧ ¬ c = 't' ∧ ¬ c = 'f' ∧ ¬ c = 'n' ∧
      isWs c = false ∧ ¬ c = ']' ∧ ¬ c = '}' ∧ ¬ c = ',' ∧ ¬ c = '-' := by
  have hv : 48 ≤ c.toNat ∧ c.toNat ≤ 57 := by
    simp only [isDigitC, Bool.and_eq_true, decide_eq_true_eq] at h
    exact h
  refine ⟨by omega, ?_, ?_, ?_, ?_, ?_, ?_, ?_, ?_, ?_, ?_⟩ <;>
    first
      | (intro he; rw [he] at h; exact absurd h (by decide))
      | (simp only [isWs, Bool.or_eq_false_iff, decide_eq_false_iff_not]; omega)

theorem parseNum_intChars (n : Int) (rest : List Char) (h : numStop rest) :
    parseNum (intChars n ++ rest) = some (.int n, rest) := by
  by_cases hneg : n < 0
  · have hd : intChars n ++ rest = '-' :: (natChars n.natAbs ++ rest) := by
      simp [intChars, hneg]
    rw [hd]
    simp only [parseNum, List.head?_cons, List.tail_cons, if_true]
    rw [parseNumCore_nat true n.natAbs rest h]
    have hn : -(n.natAbs : Int) = n := by omega
    rw [hn]
    simp
  · obtain ⟨d, t, hdt, hdig⟩ := natChars_cons n.natAbs
    have hd : intChars n ++ rest = natChars n.natAbs ++ rest := by
      simp [intChars, hneg]
    rw [hd]
    have hhead : ¬ ((natChars n.natAbs ++ rest).head? = some '-') := by
      rw [hdt]
      simp only [List.cons_append, List.head?_cons, Option.some_inj]
      intro hx
      exact (digit_facts d hdig).2.2.2.2.2.2.2.2.2.2 hx
    simp only [parseNum]
    rw [if_neg hhead]
    rw [parseNumCore_nat false n.natAbs rest h]
    have hn : (n.natAbs : Int) = n := by omega
    rw [hn]
    simp

theorem parseNum_decChars (m : Int) (e : Nat) (he : 1 ≤ e)
    (hnorm : e = 1 ∨ ¬ m.natAbs % 10 = 0) (rest : List Char) (h : numStop rest) :
    parseNum (decChars m e ++ rest) = some (.dec m e, rest) := by
  by_cases hneg : m < 0
  · have hd : decChars m e ++ rest = '-' :: (natChars (m.natAbs / 10 ^ e) ++
        ('.' :: (List.replicate (e - (natChars (m.natAbs % 10 ^ e)).length) '0' ++
          (natChars (m.natAbs % 10 ^ e) ++ rest)))) := by
      simp [decChars, hneg, List.append_assoc]
    rw [hd]
    simp only [parseNum, List.head?_cons, List.tail_cons, if_true]
    rw [parseNumCore_dec true m.natAbs e he hnorm rest h]
    have hn : -(m.natAbs : Int) = m := by omega
    rw [hn]
    simp
  · obtain ⟨d, t, hdt, hdig⟩ := natChars_cons (m.natAbs / 10 ^ e)
    have hd : decChars m e ++ rest = natChars (m.natAbs / 10 ^ e) ++
        ('.' :: (List.replicate (e - (natChars (m.natAbs % 10 ^ e)).length) '0' ++
          (natChars (m.natAbs % 10 ^ e) ++ rest))) := by
      simp [decChars, hneg, List.append_assoc]
    rw [hd]
    have hhead : ¬ ((natChars (m.natAbs / 10 ^ e) ++
        ('.' :: (List.replicate (e - (natChars (m.natAbs % 10 ^ e)).length) '0' ++
          (natChars (m.natAbs % 10 ^ e) ++ rest)))).head? = some '-') := by
      rw [hdt]
      simp only [List.cons_append, List.head?_cons, Option.some_inj]
      intro hx
      exact (digit_facts d hdig).2.2.2.2.2.2.2.2.2.2 hx
    simp only [parseNum]
    rw [if_neg hhead]
    rw [parseNumCore_dec false m.natAbs e he hnorm rest h]
    have hn : (m.natAbs : Int) = m := by omega
    rw [hn]
    simp

/-! #### Well-formed wire values and the full round trip

A `dec` node is well formed when it is the canonical decimal of a float:
at least one fraction digit, no trailing fraction zeros beyond the first.
All values the protocol builders emit are well formed. -/

mutual

def wfVal : JVal → Bool
  | .dec m e => decide (1 ≤ e) && (decide (e = 1) || decide (¬ m.natAbs % 10 = 0))
  | .arr xs => wfItems xs
  | .obj fs => wfMembers fs
  | _ => true

def wfItems : List JVal → Bool
  | [] => true
  | x :: xs => wfVal x && wfItems xs

def wfMembers : List (String × JVal) → Bool
  | [] => true
  | kv :: fs => wfVal kv.2 && wfMembers fs

end

/-- Remainder of a serialized array after one element: the closer, or a
separator followed by the remaining elements. -/
def encItemsTail : List JVal → List Char
  | [] => [']']
  | y :: ys => ',' :: ' ' :: encItems (y :: ys)

/-- Remainder of a serialized object after one member. -/
def encMembersTail : List (String × JVal) → List Char
  | [] => ['}']
  | kv :: fs => ',' :: ' ' :: encMembers (kv :: fs)

theorem encItems_cons (x : JVal) (xs : List JVal) :
    encItems (x :: xs) = encVal x ++ encItemsTail xs := by
  cases xs with
  | nil => simp [encItems, encItemsTail]
  | cons y ys => simp [encItems, encItemsTail]

theorem encMembers_cons (kv : String × JVal) (fs : List (String × JVal)) :
    encMembers (kv :: fs) =
      strChars kv.1 ++ (':' :: ' ' :: (encVal kv.2 ++ encMembersTail fs)) := by
  cases fs with
  | nil => simp [encMembers, encMembersTail]
  | cons kv2 fs2 => simp [encMembers, encMembersTail]

theorem encItemsTail_length_pos (xs : List JVal) : 1 ≤ (encItemsTail xs).length := by
  cases xs <;> simp [encItemsTail]

theorem encMembersTail_length_pos (fs : List (String × JVal)) :
    1 ≤ (encMembersTail fs).length := by
  cases fs <;> simp [encMembersTail]

theorem numStop_encItemsTail (xs : List JVal) (rest : List Char) :
    numStop (encItemsTail xs ++ rest) := by
  cases xs with
  | nil => exact numStop_cons ']' rest (by decide) (by decide)
  | cons y ys => exact numStop_cons ',' _ (by decide) (by decide)

theorem numStop_encMembersTail (fs : List (String × JVal)) (rest : List Char) :
    numStop (encMembersTail fs ++ rest) := by
  cases fs with
  | nil => exact numStop_cons '}' rest (by decide) (by decide)
  | cons kv fs2 => exact numStop_cons ',' _ (by decide) (by decide)

theorem strChars_append (s : String) (X : List Char) :
    strChars s ++ X = '"' :: (escapeList s.data ++ ('"' :: X)) := by
  simp [strChars]

theorem mk_data_eq (s : String) : String.mk s.data = s := rfl

theorem length_mk (cs : List Char) : (String.mk cs).length = cs.length := rfl

/-! Head classification of serializer output. -/

theorem encVal_ne_nil (v : JVal) : encVal v ≠ [] := by
  cases v with
  | str s => simp [encVal, strChars]
  | int n =>
    by_cases hneg : n < 0 <;>
      simp [encVal, intChars, hneg, natChars_ne_nil]
  | dec m e =>
    by_cases hneg : m < 0 <;>
      · simp only [encVal, decChars]
        intro hx
        rcases List.append_eq_nil.mp hx with ⟨h1, h2⟩
        rcases List.append_eq_nil.mp h1 with ⟨h3, h4⟩
        exact natChars_ne_nil _ h4
  | bool b => cases b <;> simp [encVal]
  | null => simp [encVal]
  | arr xs => simp [encVal]
  | obj fs => simp [encVal]

theorem encVal_head_facts (v : JVal) (c : Char) (hc : (encVal v).head? = some c) :
    isWs c = false ∧ ¬ c = ']' ∧ ¬ c = '}' ∧ ¬ c = ',' := by
  cases v with
  | str s =>
    simp [encVal, strChars] at hc
    subst hc
    exact ⟨by decide, by decide, by decide, by decide⟩
  | int n =>
    by_cases hneg : n < 0
    · simp [encVal, intChars, hneg] at hc
      subst hc
      exact ⟨by decide, by decide, by decide, by decide⟩
    · obtain ⟨d, t, hdt, hdig⟩ := natChars_cons n.natAbs
      simp [encVal, intChars, hneg, hdt] at hc
      subst hc
      obtain ⟨f1, f2, f3, f4, f5, f6, f7, f8, f9, f10, f11⟩ := digit_facts d hdig
      exact ⟨f7, f8, f9, f10⟩
  | dec m e =>
    obtain ⟨d, t, hdt, hdig⟩ := natChars_cons (m.natAbs / 10 ^ e)
    by_cases hneg : m < 0
    · simp [encVal, decChars, hneg] at hc
      subst hc
      exact ⟨by decide, by decide, by decide, by decide⟩
    · simp [encVal, decChars, hneg, hdt] at hc
      subst hc
      obtain ⟨f1, f2, f3, f4, f5, f6, f7, f8, f9, f10, f11⟩ := digit_facts d hdig
      exact ⟨f7, f8, f9, f10⟩
  | bool b =>
    cases b <;>
      · simp [encVal] at hc
        subst hc
        exact ⟨by decide, by decide, by decide, by decide⟩
  | null =>
    simp [encVal] at hc
    subst hc
    exact ⟨by decide, by decide, by decide, by decide⟩
  | arr xs =>
    simp [encVal] at hc
    subst hc
    exact ⟨by decide, by decide, by decide, by decide⟩
  | obj fs =>
    simp [encVal] at hc
    subst hc
    exact ⟨by decide, by decide, by decide, by decide⟩

/-! Whitespace stepping. -/

theorem skipWs_notWs (c : Char) (cs : List Char) (h : isWs c = false) :
    skipWs (c :: cs) = c :: cs := by
  simp [skipWs, List.dropWhile_cons, h]

theorem skipWs_space (cs : List Char) : skipWs (' ' :: cs) = skipWs cs := by
  simp [skipWs, List.dropWhile_cons, show isWs ' ' = true from by decide]

theorem parseVal_space (f : Nat) (X : List Char) :
    parseVal f (' ' :: X) = parseVal f X := by
  match f with
  | 0 => simp only [parseVal]
  | g + 1 =>
    simp only [parseVal]
    rw [skipWs_space]

theorem intChars_ne_nil (n : Int) : intChars n ≠ [] := by
  by_cases hneg : n < 0 <;> simp [intChars, hneg, natChars_ne_nil]

theorem decChars_ne_nil (m : Int) (e : Nat) : decChars m e ≠ [] := by
  by_cases hneg : m < 0 <;>
    · simp only [decChars]
      intro hx
      rcases List.append_eq_nil.mp hx with ⟨h1, h2⟩
      rcases List.append_eq_nil.mp h1 with ⟨h3, h4⟩
      exact natChars_ne_nil _ h4

theorem intChars_head_facts (n : Int) (c : Char) (hc : (intChars n).head? = some c) :
    ¬ c.toNat = 34 ∧ ¬ c = '[' ∧ ¬ c = '{' ∧ ¬ c = 't' ∧ ¬ c = 'f' ∧ ¬ c = 'n' ∧
      isWs c = false := by
  by_cases hneg : n < 0
  · simp [intChars, hneg] at hc
    subst hc
    exact ⟨by decide, by decide, by decide, by decide, by decide, by decide, by decide⟩
  · obtain ⟨d, t, hdt, hdig⟩ := natChars_cons n.natAbs
    simp [intChars, hneg, hdt] at hc
    subst hc
    obtain ⟨f1, f2, f3, f4, f5, f6, f7, f8, f9, f10, f11⟩ := digit_facts d hdig
    exact ⟨f1, f2, f3, f4, f5, f6, f7⟩

theorem decChars_head_facts (m : Int) (e : Nat) (c : Char)
    (hc : (decChars m e).head? = some c) :
    ¬ c.toNat = 34 ∧ ¬ c = '[' ∧ ¬ c = '{' ∧ ¬ c = 't' ∧ ¬ c = 'f' ∧ ¬ c = 'n' ∧
      isWs c = false := by
  by_cases hneg : m < 0
  · simp [decChars, hneg] at hc
    subst hc
    exact ⟨by decide, by decide, by decide, by decide, by decide, by decide, by decide⟩
  · obtain ⟨d, t, hdt, hdig⟩ := natChars_cons (m.natAbs / 10 ^ e)
    simp [decChars, hneg, hdt] at hc
    subst hc
    obtain ⟨f1, f2, f3, f4, f5, f6, f7, f8, f9, f10, f11⟩ := digit_facts d hdig
    exact ⟨f1, f2, f3, f4, f5, f6, f7⟩

theorem wfItems_mem (xs : List JVal) (h : wfItems xs = true) :
    ∀ x ∈ xs, wfVal x = true := by
  induction xs with
  | nil => intro x hx; simp at hx
  | cons y ys ih =>
    simp only [wfItems, Bool.and_eq_true] at h
    intro x hx
    rcases List.mem_cons.mp hx with h1 | h2
    · subst h1; exact h.1
    · exact ih h.2 x h2

theorem wfMembers_mem (fs : List (String × JVal)) (h : wfMembers fs = true) :
    ∀ kv ∈ fs, wfVal kv.2 = true := by
  induction fs with
  | nil => intro kv hkv; simp at hkv
  | cons g gs ih =>
    simp only [wfMembers, Bool.and_eq_true] at h
    intro kv hkv
    rcases List.mem_cons.mp hkv with h1 | h2
    · subst h1; exact h.1
    · exact ih h.2 kv h2

theorem parseVal_cons (f : Nat) (c : Char) (cs : List Char) (h : isWs c = false) :
    parseVal (f + 1) (c :: cs) = parseValCore f (c :: cs) := by
  simp only [parseVal]
  rw [skipWs_notWs c cs h]

theorem parseValCore_num (f : Nat) (c : Char) (cs1 : List Char)
    (h34 : ¬ c.toNat = 34) (hbk : ¬ c = '[') (hbc : ¬ c = '{')
    (htt : ¬ c = 't') (hff : ¬ c = 'f') (hnn : ¬ c = 'n') :
    parseValCore f (c :: cs1) = parseNum (c :: cs1) := by
  unfold parseValCore
  rw [if_neg h34, if_neg hbk, if_neg hbc, if_neg htt, if_neg hff, if_neg hnn]

/-- One `"key": value` member followed by the member separator loop. -/
theorem memberChain (f : Nat) (key : String) (v : JVal) (fs : List (String × JVal))
    (rest : List Char)
    (hPv : ∀ rest', numStop rest' → ∀ f', (encVal v).length < f' →
      parseVal f' (encVal v ++ rest') = some (v, rest'))
    (hTail : parseMembersTail f (encMembersTail fs ++ rest) = some (fs, rest))
    (hfv : (encVal v).length < f) :
    (parseStrBody
        ((escapeList key.data ++
          ('"' :: (':' :: ' ' :: (encVal v ++ (encMembersTail fs ++ rest))))).length + 1)
        (escapeList key.data ++
          ('"' :: (':' :: ' ' :: (encVal v ++ (encMembersTail fs ++ rest)))))).bind
      (fun k => parseMemberVal f (String.mk k.1) (skipWs k.2)) =
      some ((key, v) :: fs, rest) := by
  rw [parseStrBody_escape key.data _ _
    (by simp only [List.length_append, List.length_cons]; omega)]
  simp only [Option.some_bind]
  rw [mk_data_eq, skipWs_notWs ':' _ (by decide)]
  simp only [parseMemberVal, if_true]
  rw [parseVal_space]
  rw [hPv (encMembersTail fs ++ rest) (numStop_encMembersTail fs rest) f hfv]
  simp only [Option.some_bind]
  rw [hTail]
  simp only [Option.map_some']

theorem encMembers_cons_append (kv : String × JVal) (fs : List (String × JVal))
    (rest : List Char) :
    encMembers (kv :: fs) ++ rest =
      '"' :: (escapeList kv.1.data ++
        ('"' :: (':' :: ' ' :: (encVal kv.2 ++ (encMembersTail fs ++ rest))))) := by
  simp [encMembers_cons, strChars, List.append_assoc]

theorem parseItemsTail_enc (xs : List JVal)
    (hP : ∀ x ∈ xs, ∀ rest, numStop rest → ∀ f, (encVal x).length < f →
      parseVal f (encVal x ++ rest) = some (x, rest)) :
    ∀ (rest : List Char) (g : Nat), (encItemsTail xs).length < g →
      parseItemsTail g (encItemsTail xs ++ rest) = some (xs, rest) := by
  induction xs with
  | nil =>
    intro rest g hg
    match g with
    | g' + 1 =>
      show parseItemsTail (g' + 1) (']' :: rest) = some ([], rest)
      simp only [parseItemsTail]
      rw [skipWs_notWs ']' rest (by decide)]
      unfold parseItemsTailCore
      rw [if_pos rfl]
  | cons y ys ih =>
    intro rest g hg
    have hlen : (encItemsTail (y :: ys)).length =
        2 + (encVal y).length + (encItemsTail ys).length := by
      show (',' :: ' ' :: encItems (y :: ys)).length = _
      rw [encItems_cons]
      simp only [List.length_cons, List.length_append]
      omega
    have htp := encItemsTail_length_pos ys
    rw [hlen] at hg
    match g with
    | g' + 1 =>
      show parseItemsTail (g' + 1) ((',' :: ' ' :: encItems (y :: ys)) ++ rest) = _
      simp only [List.cons_append]
      simp only [parseItemsTail]
      rw [skipWs_notWs ',' _ (by decide)]
      unfold parseItemsTailCore
      rw [if_neg (by decide : ¬ (',' = ']'))]
      rw [if_pos rfl]
      rw [parseVal_space]
      rw [encItems_cons, List.append_assoc]
      rw [hP y (by simp) (encItemsTail ys ++ rest) (numStop_encItemsTail ys rest) g'
        (by omega)]
      simp only [Option.some_bind]
      rw [ih (fun x hx => hP x (by simp [hx])) rest g' (by omega)]
      simp only [Option.map_some']

theorem parseItems_enc (xs : List JVal)
    (hP : ∀ x ∈ xs, ∀ rest, numStop rest → ∀ f, (encVal x).length < f →
      parseVal f (encVal x ++ rest) = some (x, rest))
    (rest : List Char) (g : Nat) (hg : (encItems xs).length < g) :
    parseItems g (encItems xs ++ rest) = some (xs, rest) := by
  cases xs with
  | nil =>
    show parseItems g (']' :: rest) = some ([], rest)
    simp only [parseItems]
    rw [skipWs_notWs ']' rest (by decide)]
    unfold parseItemsCore
    rw [if_pos rfl]
  | cons x xs =>
    have hlen : (encItems (x :: xs)).length =
        (encVal x).length + (encItemsTail xs).length := by
      simp [encItems_cons]
    have htp := encItemsTail_length_pos xs
    rw [hlen] at hg
    obtain ⟨c, t, hct⟩ := List.exists_cons_of_ne_nil (encVal_ne_nil x)
    have hfacts := encVal_head_facts x c (by rw [hct]; rfl)
    rw [encItems_cons, List.append_assoc]
    simp only [parseItems]
    rw [hct, List.cons_append]
    rw [skipWs_notWs c _ hfacts.1]
    unfold parseItemsCore
    rw [if_neg hfacts.2.1]
    rw [← List.cons_append, ← hct]
    rw [hP x (by simp) (encItemsTail xs ++ rest) (numStop_encItemsTail xs rest) g
      (by omega)]
    simp only [Option.some_bind]
    rw [parseItemsTail_enc xs (fun z hz => hP z (by simp [hz])) rest g (by omega)]
    simp only [Option.map_some']

theorem parseMembersTail_enc (fs : List (String × JVal))
    (hP : ∀ kv ∈ fs, ∀ rest, numStop rest → ∀ f, (encVal kv.2).length < f →
      parseVal f (encVal kv.2 ++ rest) = some (kv.2, rest)) :
    ∀ (rest : List Char) (g : Nat), (encMembersTail fs).length < g →
      parseMembersTail g (encMembersTail fs ++ rest) = some (fs, rest) := by
  induction fs with
  | nil =>
    intro rest g hg
    match g with
    | g' + 1 =>
      show parseMembersTail (g' + 1) ('}' :: rest) = some ([], rest)
      simp only [parseMembersTail]
      rw [skipWs_notWs '}' rest (by decide)]
      unfold parseMembersTailCore
      rw [if_pos rfl]
  | cons kv fs ih =>
    obtain ⟨k1, v1⟩ := kv
    intro rest g hg
    have hmlen : (encMembersTail ((k1, v1) :: fs)).length =
        2 + ((escapeList k1.data).length + 4 + (encVal v1).length +
          (encMembersTail fs).length) := by
      show (',' :: ' ' :: encMembers ((k1, v1) :: fs)).length = _
      rw [encMembers_cons]
      simp only [strChars, List.length_cons, List.length_append, List.length_nil]
      omega
    have htp := encMembersTail_length_pos fs
    rw [hmlen] at hg
    match g with
    | g' + 1 =>
      show parseMembersTail (g' + 1) ((',' :: ' ' :: encMembers ((k1, v1) :: fs)) ++ rest) = _
      simp only [List.cons_append]
      simp only [parseMembersTail]
      rw [skipWs_notWs ',' _ (by decide)]
      unfold parseMembersTailCore
      rw [if_neg (by decide : ¬ (',' = '}'))]
      rw [if_pos rfl]
      rw [skipWs_space]
      rw [encMembers_cons_append (k1, v1) fs rest]
      rw [skipWs_notWs '"' _ (by decide)]
      unfold parseMemberKey
      rw [if_pos (by decide : ('"').toNat = 34)]
      rw [memberChain g' k1 v1 fs rest
        (fun r hr f hf => hP (k1, v1) (by simp) r hr f hf)
        (ih (fun z hz => hP z (by simp [hz])) rest g' (by omega))
        (by omega)]

theorem parseMembers_enc (fs : List (String × JVal))
    (hP : ∀ kv ∈ fs, ∀ rest, numStop rest → ∀ f, (encVal kv.2).length < f →
      parseVal f (encVal kv.2 ++ rest) = some (kv.2, rest))
    (rest : List Char) (g : Nat) (hg : (encMembers fs).length < g) :
    parseMembers g (encMembers fs ++ rest) = some (fs, rest) := by
  cases fs with
  | nil =>
    show parseMembers g ('}' :: rest) = some ([], rest)
    simp only [parseMembers]
    rw [skipWs_notWs '}' rest (by decide)]
    unfold parseMembersCore
    rw [if_pos rfl]
  | cons kv fs =>
    obtain ⟨k1, v1⟩ := kv
    have hmlen : (encMembers ((k1, v1) :: fs)).length =
        (escapeList k1.data).length + 4 + (encVal v1).length +
          (encMembersTail fs).length := by
      simp [encMembers_cons, strChars]
      omega
    have htp := encMembersTail_length_pos fs
    rw [hmlen] at hg
    rw [encMembers_cons_append (k1, v1) fs rest]
    simp only [parseMembers]
    rw [skipWs_notWs '"' _ (by decide)]
    unfold parseMembersCore
    rw [if_neg (by decide : ¬ ('"' = '}'))]
    rw [if_pos (by decide : ('"').toNat = 34)]
    rw [memberChain g k1 v1 fs rest
      (fun r hr f hf => hP (k1, v1) (by simp) r hr f hf)
      (parseMembersTail_enc fs (fun z hz => hP z (by simp [hz])) rest g (by omega))
      (by omega)]

/-- Scanning the serialization of any well-formed value, with any suffix
that cannot extend a number token, returns exactly that value. -/
theorem parseVal_enc_aux : ∀ (k : Nat) (v : JVal), sizeOf v < k → wfVal v = true →
    ∀ (rest : List Char), numStop rest → ∀ (f : Nat), (encVal v).length < f →
      parseVal f (encVal v ++ rest) = some (v, rest) := by
  intro k
  induction k with
  | zero =>
    intro v h
    omega
  | succ k ih =>
    intro v hsz hwf rest hstop f hf
    cases v with
    | str s =>
      have henc : encVal (.str s) = strChars s := by simp only [encVal]
      rw [henc] at hf ⊢
      rw [strChars_append]
      have hf2 : 2 ≤ f := by
        simp only [strChars, List.length_append, List.length_cons] at hf
        omega
      match f, hf2 with
      | f' + 1, _ =>
        rw [parseVal_cons f' '"' _ (by decide)]
        unfold parseValCore
        rw [if_pos (by decide : ('"').toNat = 34)]
        rw [parseStrBody_escape s.data rest _
          (by simp only [List.length_append, List.length_cons]; omega)]
        simp only [Option.map_some', mk_data_eq]
    | int n =>
      have henc : encVal (.int n) = intChars n := by simp only [encVal]
      rw [henc] at hf ⊢
      obtain ⟨c, t, hct⟩ := List.exists_cons_of_ne_nil (intChars_ne_nil n)
      have hfacts := intChars_head_facts n c (by rw [hct]; rfl)
      have hf1 : 1 ≤ f := by omega
      match f, hf1 with
      | f' + 1, _ =>
        rw [hct, List.cons_append]
        rw [parseVal_cons f' c _ hfacts.2.2.2.2.2.2]
        rw [parseValCore_num f' c _ hfacts.1 hfacts.2.1 hfacts.2.2.1 hfacts.2.2.2.1
          hfacts.2.2.2.2.1 hfacts.2.2.2.2.2.1]
        rw [← List.cons_append, ← hct]
        exact parseNum_intChars n rest hstop
    | dec m e =>
      have henc : encVal (.dec m e) = decChars m e := by simp only [encVal]
      rw [henc] at hf ⊢
      have hwf' : 1 ≤ e ∧ (e = 1 ∨ ¬ m.natAbs % 10 = 0) := by
        simpa [wfVal, Bool.and_eq_true, Bool.or_eq_true, decide_eq_true_eq] using hwf
      obtain ⟨c, t, hct⟩ := List.exists_cons_of_ne_nil (decChars_ne_nil m e)
      have hfacts := decChars_head_facts m e c (by rw [hct]; rfl)
      have hf1 : 1 ≤ f := by omega
      match f, hf1 with
      | f' + 1, _ =>
        rw [hct, List.cons_append]
        rw [parseVal_cons f' c _ hfacts.2.2.2.2.2.2]
        rw [parseValCore_num f' c _ hfacts.1 hfacts.2.1 hfacts.2.2.1 hfacts.2.2.2.1
          hfacts.2.2.2.2.1 hfacts.2.2.2.2.2.1]
        rw [← List.cons_append, ← hct]
        exact parseNum_decChars m e hwf'.1 hwf'.2 rest hstop
    | bool b =>
      cases b with
      | true =>
        have henc : encVal (.bool true) = ['t', 'r', 'u', 'e'] := by simp [encVal]
        rw [henc] at hf ⊢
        have hf1 : 1 ≤ f := by simp at hf; omega
        match f, hf1 with
        | f' + 1, _ =>
          simp only [List.cons_append, List.nil_append]
          rw [parseVal_cons f' 't' _ (by decide)]
          unfold parseValCore
          rw [if_neg (by decide), if_neg (by decide), if_neg (by decide), if_pos rfl]
          rfl
      | false =>
        have henc : encVal (.bool false) = ['f', 'a', 'l', 's', 'e'] := by simp [encVal]
        rw [henc] at hf ⊢
        have hf1 : 1 ≤ f := by simp at hf; omega
        match f, hf1 with
        | f' + 1, _ =>
          simp only [List.cons_append, List.nil_append]
          rw [parseVal_cons f' 'f' _ (by decide)]
          unfold parseValCore
          rw [if_neg (by decide), if_neg (by decide), if_neg (by decide),
            if_neg (by decide), if_pos rfl]
          rfl
    | null =>
      have henc : encVal .null = ['n', 'u', 'l', 'l'] := by simp [encVal]
      rw [henc] at hf ⊢
      have hf1 : 1 ≤ f := by simp at hf; omega
      match f, hf1 with
      | f' + 1, _ =>
        simp only [List.cons_append, List.nil_append]
        rw [parseVal_cons f' 'n' _ (by decide)]
        unfold parseValCore
        rw [if_neg (by decide), if_neg (by decide), if_neg (by decide),
          if_neg (by decide), if_neg (by decide), if_pos rfl]
        rfl
    | arr xs =>
      have henc : encVal (.arr xs) = '[' :: encItems xs := by simp only [encVal]
      rw [henc] at hf ⊢
      have hwf' : wfItems xs = true := by simpa [wfVal] using hwf
      have hszxs : sizeOf xs < k := by
        have h1 : sizeOf (JVal.arr xs) = 1 + sizeOf xs := by simp
        omega
      have hf1 : 1 ≤ f := by omega
      match f, hf1 with
      | f' + 1, _ =>
        rw [List.cons_append]
        rw [parseVal_cons f' '[' _ (by decide)]
        unfold parseValCore
        rw [if_neg (by decide : ¬ (('[').toNat = 34)), if_pos rfl]
        rw [parseItems_enc xs
          (fun x hx rest' hr f2 hf2 =>
            ih x (by have := List.sizeOf_lt_of_mem hx; omega)
              (wfItems_mem xs hwf' x hx) rest' hr f2 hf2)
          rest f' (by simp only [List.length_cons] at hf; omega)]
        simp only [Option.map_some']
    | obj fs =>
      have henc : encVal (.obj fs) = '{' :: encMembers fs := by simp only [encVal]
      rw [henc] at hf ⊢
      have hwf' : wfMembers fs = true := by simpa [wfVal] using hwf
      have hszfs : sizeOf fs < k := by
        have h1 : sizeOf (JVal.obj fs) = 1 + sizeOf fs := by simp
        omega
      have hf1 : 1 ≤ f := by omega
      match f, hf1 with
      | f' + 1, _ =>
        rw [List.cons_append]
        rw [parseVal_cons f' '{' _ (by decide)]
        unfold parseValCore
        rw [if_neg (by decide : ¬ (('{').toNat = 34)),
          if_neg (by decide : ¬ ('{' = '[')), if_pos rfl]
        rw [parseMembers_enc fs
          (fun kv hkv rest' hr f2 hf2 =>
            ih kv.2
              (by
                have h2 := List.sizeOf_lt_of_mem hkv
                have h3 : sizeOf kv.2 < sizeOf kv := by
                  obtain ⟨a, b⟩ := kv
                  simp
                omega)
              (wfMembers_mem fs hwf' kv hkv) rest' hr f2 hf2)
          rest f' (by simp only [List.length_cons] at hf; omega)]
        simp only [Option.map_some']

/-- Claim C1's engine: decoding the encoding of a well-formed value gives
the value back. -/
theorem decode_encode (v : JVal) (hwf : wfVal v = true) : decode (encode v) = some v := by
  have h := parseVal_enc_aux (sizeOf v + 1) v (by omega) hwf [] numStop_nil
    ((encVal v).length + 1) (by omega)
  rw [List.append_nil] at h
  show decodeFinish (parseVal ((String.mk (encVal v)).length + 1)
    (String.mk (encVal v)).data) = some v
  rw [length_mk]
  rw [show (String.mk (encVal v)).data = encVal v from rfl]
  rw [h]
  simp [decodeFinish, skipWs]

/-! ### Protocol message builders, from src/project1/protocol.py.
Run-time environment inputs (the ISO timestamp string and the uuid4
string) are passed as parameters. -/

def HELLO : String := "HELLO"

def PEER_LIST : String := "PEER_LIST"

def PING : String := "PING"

def PONG : String := "PONG"

def VIEW_EVENT : String := "VIEW_EVENT"

def AUDIT_RESULT : String := "AUDIT_RESULT"

def CHOKE : String := "CHOKE"

def UNCHOKE : String := "UNCHOKE"

def ALL_TYPES : List String :=
  [HELLO, PEER_LIST, PING, PONG, VIEW_EVENT, AUDIT_RESULT, CHOKE, UNCHOKE]

/-- Base message dict of protocol._base: the msg_id is the first 8
characters of the uuid string. -/
def base (msg_type sender timestamp uuid : String) : List (String × JVal) :=
  [("type", .str msg_type), ("sender", .str sender),
   ("timestamp", .str timestamp), ("msg_id", .str (String.mk (uuid.data.take 8)))]

def hello (sender queue_url timestamp uuid : String) : JVal :=
  .obj (base HELLO sender timestamp uuid ++ [("queue_url", .str queue_url)])

/-- One entry of a PEER_LIST payload: a dict with node_id and queue_url. -/
def peerEntry (p : String × String) : JVal :=
  .obj [("node_id", .str p.1), ("queue_url", .str p.2)]

def peer_list (sender : String) (peers : List (String × String))
    (timestamp uuid : String) : JVal :=
  .obj (base PEER_LIST sender timestamp uuid ++
    [("peers", .arr (List.map peerEntry peers))])

def ping (sender : String) (seq : Int) (timestamp uuid : String) : JVal :=
  .obj (base PING sender timestamp uuid ++ [("seq", .int seq)])

def pong (sender : String) (seq : Int) (timestamp uuid : String) : JVal :=
  .obj (base PONG sender timestamp uuid ++ [("seq", .int seq)])

def view_event (sender event_id content_id : String) (count : Int)
    (ad_id timestamp uuid : String) : JVal :=
  .obj (base VIEW_EVENT sender timestamp uuid ++
    [("event_id", .str event_id), ("content_id", .str content_id),
     ("count", .int count), ("ad_id", .str ad_id)])

/-- Round half to even, as Python round does on the scaled value. -/
def roundHalfEven (q : ℚ) : Int :=
  if Int.fract q < 1 / 2 then ⌊q⌋
  else if 1 / 2 < Int.fract q then ⌊q⌋ + 1
  else if ⌊q⌋ % 2 = 0 then ⌊q⌋ else ⌊q⌋ + 1

/-- Shortest decimal form of m / 10^4, as float repr prints a value
rounded to four decimal places: trailing fraction zeros are stripped
down to a single fraction digit. -/
def normDec4 (m : Int) : Int × Nat :=
  let p := normDecAux 4 m.natAbs 4
  (if m < 0 then -(p.1 : Int) else (p.1 : Int), p.2)

def audit_result (sender content_id : String) (agreed_count : Int)
    (confidence : ℚ) (voters : Option (List String))
    (timestamp uuid : String) : JVal :=
  let c := normDec4 (roundHalfEven (confidence * 10000))
  .obj (base AUDIT_RESULT sender timestamp uuid ++
    [("content_id", .str content_id), ("agreed_count", .int agreed_count),
     ("confidence", .dec c.1 c.2),
     ("voters", .arr (List.map JVal.str (voters.getD [])))])

def choke (sender timestamp uuid : String) : JVal :=
  .obj (base CHOKE sender timestamp uuid)

def unchoke (sender timestamp uuid : String) : JVal :=
  .obj (base UNCHOKE sender timestamp uuid)

/-! ### Well-formedness of everything the builders emit -/

theorem normDecAux_wf (f a e : Nat) (he : 1 ≤ e) (hf : e ≤ f + 1) :
    1 ≤ (normDecAux f a e).2 ∧
      ((normDecAux f a e).2 = 1 ∨ ¬ (normDecAux f a e).1 % 10 = 0) := by
  induction f generalizing a e with
  | zero =>
    have he1 : e = 1 := by omega
    simp only [normDecAux]
    exact ⟨he, Or.inl he1⟩
  | succ g ih =>
    simp only [normDecAux]
    by_cases h : 1 < e ∧ a % 10 = 0
    · rw [if_pos h]
      exact ih (a / 10) (e - 1) (by omega) (by omega)
    · rw [if_neg h]
      refine ⟨he, ?_⟩
      by_cases h2 : a % 10 = 0
      · exact Or.inl (by omega)
      · exact Or.inr h2

theorem normDec4_wf (m : Int) :
    1 ≤ (normDec4 m).2 ∧
      ((normDec4 m).2 = 1 ∨ ¬ (normDec4 m).1.natAbs % 10 = 0) := by
  obtain ⟨h1, h2⟩ := normDecAux_wf 4 m.natAbs 4 (by omega) (by omega)
  simp only [normDec4]
  by_cases hm : m < 0
  · rw [if_pos hm]
    simp only [Int.natAbs_neg, Int.natAbs_ofNat]
    exact ⟨h1, h2⟩
  · rw [if_neg hm]
    simp only [Int.natAbs_ofNat]
    exact ⟨h1, h2⟩

theorem wfMembers_append (as bs : List (String × JVal)) :
    wfMembers (as ++ bs) = (wfMembers as && wfMembers bs) := by
  induction as with
  | nil => simp [wfMembers]
  | cons kv as ih => simp [wfMembers, ih, Bool.and_assoc]

theorem wfMembers_base (t s ts u : String) : wfMembers (base t s ts u) = true := by
  simp [base, wfMembers, wfVal]

theorem wfItems_map_str (xs : List String) :
    wfItems (List.map JVal.str xs) = true := by
  induction xs with
  | nil => simp [wfItems]
  | cons x xs ih => simp [wfItems, wfVal, ih]

theorem wfItems_map_peerEntry (ps : List (String × String)) :
    wfItems (List.map peerEntry ps) = true := by
  induction ps with
  | nil => simp [wfItems]
  | cons p ps ih => simp [wfItems, peerEntry, wfVal, wfMembers, ih]

theorem wfVal_hello (s q ts u : String) : wfVal (hello s q ts u) = true := by
  simp [hello, wfVal, wfMembers_append, wfMembers_base, wfMembers]

theorem wfVal_peer_list (s : String) (ps : List (String × String)) (ts u : String) :
    wfVal (peer_list s ps ts u) = true := by
  simp [peer_list, wfVal, wfMembers_append, wfMembers_base, wfMembers,
    wfItems_map_peerEntry]

theorem wfVal_ping (s : String) (n : Int) (ts u : String) :
    wfVal (ping s n ts u) = true := by
  simp [ping, wfVal, wfMembers_append, wfMembers_base, wfMembers]

theorem wfVal_pong (s : String) (n : Int) (ts u : String) :
    wfVal (pong s n ts u) = true := by
  simp [pong, wfVal, wfMembers_append, wfMembers_base, wfMembers]

theorem wfVal_view_event (s e c : String) (n : Int) (a ts u : String) :
    wfVal (view_event s e c n a ts u) = true := by
  simp [view_event, wfVal, wfMembers_append, wfMembers_base, wfMembers]

theorem wfVal_audit_result (s c : String) (n : Int) (cf : ℚ)
    (vs : Option (List String)) (ts u : String) :
    wfVal (audit_result s c n cf vs ts u) = true := by
  simp [audit_result, wfVal, wfMembers_append, wfMembers_base, wfMembers,
    wfItems_map_str]
  exact normDec4_wf _

theorem wfVal_choke (s ts u : String) : wfVal (choke s ts u) = true := by
  simp [choke, wfVal, wfMembers_base]

theorem wfVal_unchoke (s ts u : String) : wfVal (unchoke s ts u) = true := by
  simp [unchoke, wfVal, wfMembers_base]

/-- Claim C1: every message produced by any of the eight protocol
builders survives the decode-after-encode roundtrip identically. -/
theorem builders_encode_decode_roundtrip :
    (∀ s q ts u, decode (encode (hello s q ts u)) = some (hello s q ts u)) ∧
    (∀ s ps ts u, decode (encode (peer_list s ps ts u)) = some (peer_list s ps ts u)) ∧
    (∀ s n ts u, decode (encode (ping s n ts u)) = some (ping s n ts u)) ∧
    (∀ s n ts u, decode (encode (pong s n ts u)) = some (pong s n ts u)) ∧
    (∀ s e c n a ts u,
      decode (encode (view_event s e c n a ts u)) = some (view_event s e c n a ts u)) ∧
    (∀ s c n cf vs ts u,
      decode (encode (audit_result s c n cf vs ts u)) = some (audit_result s c n cf vs ts u)) ∧
    (∀ s ts u, decode (encode (choke s ts u)) = some (choke s ts u)) ∧
    (∀ s ts u, decode (encode (unchoke s ts u)) = some (unchoke s ts u)) :=
  ⟨fun s q ts u => decode_encode _ (wfVal_hello s q ts u),
   fun s ps ts u => decode_encode _ (wfVal_peer_list s ps ts u),
   fun s n ts u => decode_encode _ (wfVal_ping s n ts u),
   fun s n ts u => decode_encode _ (wfVal_pong s n ts u),
   fun s e c n a ts u => decode_encode _ (wfVal_view_event s e c n a ts u),
   fun s c n cf vs ts u => decode_encode _ (wfVal_audit_result s c n cf vs ts u),
   fun s ts u => decode_encode _ (wfVal_choke s ts u),
   fun s ts u => decode_encode _ (wfVal_unchoke s ts u)⟩

/-! ### Base fields of every builder message -/

/-- Dict field access, first match on the key. -/
def getField : List (String × JVal) → String → Option JVal
  | [], _ => none
  | kv :: fs, k => if kv.1 = k then some kv.2 else getField fs k

/-- ISO 8601 timestamp of datetime.isoformat on an aware UTC datetime:
fixed-width decimal fields, the microsecond part omitted when zero. -/
def isoformatUTC (y mo d h mi s us : Nat) : String :=
  String.mk ([dchar (y / 1000 % 10), dchar (y / 100 % 10), dchar (y / 10 % 10),
    dchar (y % 10), '-', dchar (mo / 10 % 10), dchar (mo % 10), '-',
    dchar (d / 10 % 10), dchar (d % 10), 'T', dchar (h / 10 % 10), dchar (h % 10),
    ':', dchar (mi / 10 % 10), dchar (mi % 10), ':', dchar (s / 10 % 10),
    dchar (s % 10)] ++
    (if us = 0 then [] else
      '.' :: [dchar (us / 100000 % 10), dchar (us / 10000 % 10),
        dchar (us / 1000 % 10), dchar (us / 100 % 10), dchar (us / 10 % 10),
        dchar (us % 10)]) ++ ("+00:00").data)

/-- Checker for an ISO 8601 UTC timestamp string: date, clock time, an
optional 6-digit fraction, and the +00:00 offset. -/
def isIso8601UTC (str : String) : Bool :=
  match str.data with
  | y1 :: y2 :: y3 :: y4 :: c1 :: a1 :: a2 :: c2 :: b1 :: b2 :: t1 :: h1 :: h2 ::
      c3 :: m1 :: m2 :: c4 :: s1 :: s2 :: rest =>
    [y1, y2, y3, y4, a1, a2, b1, b2, h1, h2, m1, m2, s1, s2].all isDigitC &&
    (c1 == '-') && (c2 == '-') && (t1 == 'T') && (c3 == ':') && (c4 == ':') &&
    (match rest with
     | ['+', '0', '0', ':', '0', '0'] => true
     | '.' :: u1 :: u2 :: u3 :: u4 :: u5 :: u6 ::
         '+' :: '0' :: '0' :: ':' :: '0' :: '0' :: [] =>
       [u1, u2, u3, u4, u5, u6].all isDigitC
     | _ => false)
  | _ => false

theorem dchar_mod_digit (n : Nat) : isDigitC (dchar (n % 10)) = true :=
  dchar_isDigit (n % 10) (Nat.mod_lt n (by omega))

theorem isoformatUTC_valid (y mo d h mi s us : Nat) :
    isIso8601UTC (isoformatUTC y mo d h mi s us) = true := by
  by_cases hus : us = 0
  · rw [hus]
    simp [isoformatUTC, isIso8601UTC, dchar_mod_digit]
  · rw [show isoformatUTC y mo d h mi s us = String.mk ([dchar (y / 1000 % 10),
      dchar (y / 100 % 10), dchar (y / 10 % 10), dchar (y % 10), '-',
      dchar (mo / 10 % 10), dchar (mo % 10), '-', dchar (d / 10 % 10),
      dchar (d % 10), 'T', dchar (h / 10 % 10), dchar (h % 10), ':',
      dchar (mi / 10 % 10), dchar (mi % 10), ':', dchar (s / 10 % 10),
      dchar (s % 10)] ++
      ('.' :: [dchar (us / 100000 % 10), dchar (us / 10000 % 10),
        dchar (us / 1000 % 10), dchar (us / 100 % 10), dchar (us / 10 % 10),
        dchar (us % 10)]) ++ ("+00:00").data) from by
        simp [isoformatUTC, hus]]
    simp [isIso8601UTC, dchar_mod_digit]

/-- The message is a dict holding the four base fields of protocol._base,
with an 8-character msg_id. -/
def hasBaseFields (m : JVal) (msg_type sender ts : String) : Prop :=
  ∃ fs, m = .obj fs ∧
    getField fs ("type") = some (.str msg_type) ∧
    getField fs ("sender") = some (.str sender) ∧
    getField fs ("timestamp") = some (.str ts) ∧
    ∃ mid, getField fs ("msg_id") = some (.str mid) ∧ mid.length = 8

theorem getField_base (t s ts u : String) (hu : 8 ≤ u.length)
    (extra : List (String × JVal)) :
    getField (base t s ts u ++ extra) ("type") = some (.str t) ∧
    getField (base t s ts u ++ extra) ("sender") = some (.str s) ∧
    getField (base t s ts u ++ extra) ("timestamp") = some (.str ts) ∧
    ∃ mid, getField (base t s ts u ++ extra) ("msg_id") = some (.str mid) ∧
      mid.length = 8 := by
  refine ⟨?_, ?_, ?_, ⟨String.mk (u.data.take 8), ?_, ?_⟩⟩
  · simp [base, getField]
  · simp [base, getField]
  · simp [base, getField]
  · simp [base, getField]
  · rw [length_mk, List.length_take]
    have hd : u.data.length = u.length := rfl
    omega

/-- Claim C6: every builder message carries the base fields type, sender,
timestamp (an ISO 8601 UTC string) and msg_id, and the msg_id has exactly
8 characters; the uuid4 string the code slices is at least 8 characters
long. -/
theorem builders_base_fields (sender queue_url event_id content_id ad_id : String)
    (n : Int) (cf : ℚ) (vs : Option (List String)) (peers : List (String × String))
    (y mo d h mi s us : Nat) (u : String) (hu : 8 ≤ u.length) :
    isIso8601UTC (isoformatUTC y mo d h mi s us) = true ∧
    (hasBaseFields (hello sender queue_url (isoformatUTC y mo d h mi s us) u)
      HELLO sender (isoformatUTC y mo d h mi s us)) ∧
    (hasBaseFields (peer_list sender peers (isoformatUTC y mo d h mi s us) u)
      PEER_LIST sender (isoformatUTC y mo d h mi s us)) ∧
    (hasBaseFields (ping sender n (isoformatUTC y mo d h mi s us) u)
      PING sender (isoformatUTC y mo d h mi s us)) ∧
    (hasBaseFields (pong sender n (isoformatUTC y mo d h mi s us) u)
      PONG sender (isoformatUTC y mo d h mi s us)) ∧
    (hasBaseFields (view_event sender event_id content_id n ad_id
        (isoformatUTC y mo d h mi s us) u)
      VIEW_EVENT sender (isoformatUTC y mo d h mi s us)) ∧
    (hasBaseFields (audit_result sender content_id n cf vs
        (isoformatUTC y mo d h mi s us) u)
      AUDIT_RESULT sender (isoformatUTC y mo d h mi s us)) ∧
    (hasBaseFields (choke sender (isoformatUTC y mo d h mi s us) u)
      CHOKE sender (isoformatUTC y mo d h mi s us)) ∧
    (hasBaseFields (unchoke sender (isoformatUTC y mo d h mi s us) u)
      UNCHOKE sender (isoformatUTC y mo d h mi s us)) := by
  refine ⟨isoformatUTC_valid y mo d h mi s us, ?_, ?_, ?_, ?_, ?_, ?_, ?_, ?_⟩
  · exact ⟨_, rfl, getField_base HELLO sender _ u hu _⟩
  · exact ⟨_, rfl, getField_base PEER_LIST sender _ u hu _⟩
  · exact ⟨_, rfl, getField_base PING sender _ u hu _⟩
  · exact ⟨_, rfl, getField_base PONG sender _ u hu _⟩
  · exact ⟨_, rfl, getField_base VIEW_EVENT sender _ u hu _⟩
  · exact ⟨_, rfl, getField_base AUDIT_RESULT sender _ u hu _⟩
  · exact ⟨_, rfl, by simpa using getField_base CHOKE sender _ u hu []⟩
  · exact ⟨_, rfl, by simpa using getField_base UNCHOKE sender _ u hu []⟩

/-- Concrete instance of the base-field theorem. -/
theorem builders_base_fields_witness :
    8 ≤ ("123e4567-e89b-12d3-a456-426614174000").length ∧
    (isIso8601UTC (isoformatUTC 2026 10 12 3 14 15 926535) = true ∧
    (hasBaseFields (hello "hugo" "url" (isoformatUTC 2026 10 12 3 14 15 926535)
        "123e4567-e89b-12d3-a456-426614174000")
      HELLO "hugo" (isoformatUTC 2026 10 12 3 14 15 926535)) ∧
    (hasBaseFields (peer_list "hugo" [] (isoformatUTC 2026 10 12 3 14 15 926535)
        "123e4567-e89b-12d3-a456-426614174000")
      PEER_LIST "hugo" (isoformatUTC 2026 10 12 3 14 15 926535)) ∧
    (hasBaseFields (ping "hugo" 150 (isoformatUTC 2026 10 12 3 14 15 926535)
        "123e4567-e89b-12d3-a456-426614174000")
      PING "hugo" (isoformatUTC 2026 10 12 3 14 15 926535)) ∧
    (hasBaseFields (pong "hugo" 150 (isoformatUTC 2026 10 12 3 14 15 926535)
        "123e4567-e89b-12d3-a456-426614174000")
      PONG "hugo" (isoformatUTC 2026 10 12 3 14 15 926535)) ∧
    (hasBaseFields (view_event "hugo" "evt" "vid" 150 "ad"
        (isoformatUTC 2026 10 12 3 14 15 926535)
        "123e4567-e89b-12d3-a456-426614174000")
      VIEW_EVENT "hugo" (isoformatUTC 2026 10 12 3 14 15 926535)) ∧
    (hasBaseFields (audit_result "hugo" "vid" 150 (92 / 100) (some ["sam"])
        (isoformatUTC 2026 10 12 3 14 15 926535)
        "123e4567-e89b-12d3-a456-426614174000")
      AUDIT_RESULT "hugo" (isoformatUTC 2026 10 12 3 14 15 926535)) ∧
    (hasBaseFields (choke "hugo" (isoformatUTC 2026 10 12 3 14 15 926535)
        "123e4567-e89b-12d3-a456-426614174000")
      CHOKE "hugo" (isoformatUTC 2026 10 12 3 14 15 926535)) ∧
    (hasBaseFields (unchoke "hugo" (isoformatUTC 2026 10 12 3 14 15 926535)
        "123e4567-e89b-12d3-a456-426614174000")
      UNCHOKE "hugo" (isoformatUTC 2026 10 12 3 14 15 926535))) :=
  ⟨by decide,
   builders_base_fields "hugo" "url" "evt" "vid" "ad" 150 (92 / 100) (some ["sam"])
     [] 2026 10 12 3 14 15 926535 "123e4567-e89b-12d3-a456-426614174000"
     (by decide)⟩

/-! ### Heartbeat peer state, from src/project1/algorithms/heartbeat.py -/

inductive PeerStatus where
  | ALIVE
  | SUSPECT
  | DEAD
deriving DecidableEq, Repr

/-- Tracked state for a single monitored peer. -/
structure PeerState where
  node_id : String
  status : PeerStatus
  consecutive_misses : Int
  last_pong_round : Int
  total_pings_sent : Int
  total_pongs_received : Int
deriving Repr

/-- PeerState.response_rate. -/
def response_rate (p : PeerState) : ℚ :=
  if p.total_pings_sent = 0 then 1
  else (p.total_pongs_received : ℚ) / (p.total_pings_sent : ℚ)

/-- HeartbeatNode state as stored by its constructor. -/
structure HeartbeatNode where
  node_id : String
  miss_threshold : Int
  grace_period : Int
  peers : List (String × PeerState)
  log : List String
deriving Repr

/-- HeartbeatNode.__init__, Except-wrapped so that a raise could be
modelled as .error: the body stores the arguments and raises nothing. -/
def HeartbeatNode.init (node_id : String) (miss_threshold grace_period : Int) :
    Except String HeartbeatNode :=
  .ok { node_id := node_id, miss_threshold := miss_threshold,
        grace_period := grace_period, peers := [], log := [] }

/-! ### Choking tracker, from src/project1/algorithms/choking.py -/

/-- Tracks a single peer's contribution and choking state. -/
structure PeerTracker where
  node_id : String
  contributed : Int
  received : Int
  is_choked : Bool
  is_interested : Bool
  rounds_choked : Int
deriving Repr

/-- PeerTracker.reciprocity_ratio. -/
def reciprocity_ratio (p : PeerTracker) : ℚ :=
  if p.received = 0 then (p.contributed : ℚ)
  else (p.contributed : ℚ) / (p.received : ℚ)

/-! ### Reputation record, from src/project1/algorithms/reputation.py -/

/-- Tracks reputation metrics for a single peer. -/
structure ReputationRecord where
  node_id : String
  reports_total : Int
  reports_accurate : Int
  heartbeats_total : Int
  heartbeats_responded : Int
  contributions : Int
  consumptions : Int
  decay_factor : ℚ
  trust_score : ℚ
deriving Repr

/-- ReputationRecord.accuracy. -/
def accuracy (r : ReputationRecord) : ℚ :=
  if r.reports_total = 0 then 1 / 2
  else (r.reports_accurate : ℚ) / (r.reports_total : ℚ)

/-- ReputationRecord.uptime. -/
def uptime (r : ReputationRecord) : ℚ :=
  if r.heartbeats_total = 0 then 1 / 2
  else (r.heartbeats_responded : ℚ) / (r.heartbeats_total : ℚ)

/-- ReputationRecord.reciprocity. -/
def reciprocity (r : ReputationRecord) : ℚ :=
  if r.contributions + r.consumptions = 0 then 1 / 2
  else (r.contributions : ℚ) / ((r.contributions + r.consumptions : Int) : ℚ)

/-- Claim C2, counterexample: with miss_threshold = grace_period = 2 the
invariant miss_threshold > grace_period is violated, yet the constructor
returns a fully built node and raises nothing. -/
theorem heartbeat_init_accepts_violated_invariant :
    (2 : Int) ≤ 2 ∧
    HeartbeatNode.init "hugo" 2 2 =
      .ok { node_id := "hugo", miss_threshold := 2, grace_period := 2,
            peers := [], log := [] } :=
  ⟨by norm_num, rfl⟩

/-- The constructor is unconditional: for every argument triple, also
those violating the documented invariant, it returns the stored node. -/
theorem heartbeat_init_total (nid : String) (mt gp : Int) :
    HeartbeatNode.init nid mt gp =
      .ok { node_id := nid, miss_threshold := mt, grace_period := gp,
            peers := [], log := [] } := rfl

/-- Claim C7: reciprocity_ratio is contributed / received for positive
received, and the plain contributed value when received is zero. -/
theorem reciprocity_ratio_branches (p : PeerTracker) :
    (0 < p.received →
      reciprocity_ratio p = (p.contributed : ℚ) / (p.received : ℚ)) ∧
    (p.received = 0 → reciprocity_ratio p = (p.contributed : ℚ)) := by
  constructor
  · intro h
    have h0 : ¬ p.received = 0 := by omega
    simp [reciprocity_ratio, h0]
  · intro h
    simp [reciprocity_ratio, h]

/-- Concrete instance of the reciprocity-ratio branches. -/
theorem reciprocity_ratio_branches_witness :
    (0 < (6 : Int) ∧
      reciprocity_ratio ⟨"sam", 3, 6, true, true, 0⟩ = ((3 : Int) : ℚ) / ((6 : Int) : ℚ)) ∧
    ((0 : Int) = 0 ∧ reciprocity_ratio ⟨"phin", 3, 0, true, true, 0⟩ = ((3 : Int) : ℚ)) :=
  ⟨⟨by norm_num, (reciprocity_ratio_branches ⟨"sam", 3, 6, true, true, 0⟩).1 (by norm_num)⟩,
   ⟨rfl, (reciprocity_ratio_branches ⟨"phin", 3, 0, true, true, 0⟩).2 rfl⟩⟩

/-- Claim C8, counterexample: at a negative reports_total the claimed
0.5 branch is not taken; accuracy divides and returns -1. -/
theorem accuracy_negative_total :
    ¬ accuracy ⟨"sam", -1, 1, 0, 0, 0, 0, 95 / 100, 1 / 2⟩ = 1 / 2 := by
  norm_num [accuracy]

/-- Claim C8 amended: each of the three scores returns the ratio exactly
when its denominator is nonzero (not merely positive), and 0.5 exactly
when the denominator is zero. -/
theorem reputation_score_branches (r : ReputationRecord) :
    (r.reports_total = 0 → accuracy r = 1 / 2) ∧
    (¬ r.reports_total = 0 →
      accuracy r = (r.reports_accurate : ℚ) / (r.reports_total : ℚ)) ∧
    (r.heartbeats_total = 0 → uptime r = 1 / 2) ∧
    (¬ r.heartbeats_total = 0 →
      uptime r = (r.heartbeats_responded : ℚ) / (r.heartbeats_total : ℚ)) ∧
    (r.contributions + r.consumptions = 0 → reciprocity r = 1 / 2) ∧
    (¬ r.contributions + r.consumptions = 0 →
      reciprocity r = (r.contributions : ℚ) / ((r.contributions + r.consumptions : Int) : ℚ)) := by
  refine ⟨fun h => ?_, fun h => ?_, fun h => ?_, fun h => ?_, fun h => ?_, fun h => ?_⟩
  · simp [accuracy, h]
  · simp [accuracy, h]
  · simp [uptime, h]
  · simp [uptime, h]
  · simp [reciprocity, h]
  · simp [reciprocity, h]

/-- Concrete instance of the reputation score branches. -/
theorem reputation_score_branches_witness :
    accuracy ⟨"sam", 4, 3, 0, 0, 2, 2, 95 / 100, 1 / 2⟩ = ((3 : Int) : ℚ) / ((4 : Int) : ℚ) ∧
    uptime ⟨"sam", 4, 3, 0, 0, 2, 2, 95 / 100, 1 / 2⟩ = 1 / 2 ∧
    reciprocity ⟨"sam", 4, 3, 0, 0, 2, 2, 95 / 100, 1 / 2⟩ =
      ((2 : Int) : ℚ) / (((2 : Int) + 2 : Int) : ℚ) :=
  ⟨(reputation_score_branches ⟨"sam", 4, 3, 0, 0, 2, 2, 95 / 100, 1 / 2⟩).2.1 (by norm_num),
   (reputation_score_branches ⟨"sam", 4, 3, 0, 0, 2, 2, 95 / 100, 1 / 2⟩).2.2.1 rfl,
   (reputation_score_branches ⟨"sam", 4, 3, 0, 0, 2, 2, 95 / 100, 1 / 2⟩).2.2.2.2.2 (by norm_num)⟩

/-- Claim C10: response_rate is total; it is 1 when no pings were sent and
the pong-to-ping ratio otherwise, with no reachable division-by-zero
branch. -/
theorem response_rate_total (p : PeerState) :
    (p.total_pings_sent = 0 → response_rate p = 1) ∧
    (¬ p.total_pings_sent = 0 →
      response_rate p = (p.total_pongs_received : ℚ) / (p.total_pings_sent : ℚ)) := by
  constructor
  · intro h
    simp [response_rate, h]
  · intro h
    simp [response_rate, h]

/-- Concrete instance of the response-rate branches. -/
theorem response_rate_total_witness :
    response_rate ⟨"sam", .ALIVE, 0, 0, 0, 0⟩ = 1 ∧
    response_rate ⟨"sam", .ALIVE, 0, 7, 4, 3⟩ = ((3 : Int) : ℚ) / ((4 : Int) : ℚ) :=
  ⟨(response_rate_total ⟨"sam", .ALIVE, 0, 0, 0, 0⟩).1 rfl,
   (response_rate_total ⟨"sam", .ALIVE, 0, 7, 4, 3⟩).2 (by norm_num)⟩

/-! ### Gossip peer table, from src/project1/algorithms/gossip.py. The
table mutators raise NotImplementedError in the source; they are
modelled from the spec (section 4.1), as marked on each. -/

/-- A single known peer in the gossip table. -/
structure PeerEntry where
  node_id : String
  queue_url : String
  last_seen : ℚ
  ttl : Int
deriving Repr, DecidableEq

/-- PeerEntry.is_expired. -/
def is_expired (e : PeerEntry) : Bool := decide (e.ttl ≤ 0)

/-- GossipNode state as stored by its constructor. -/
structure GossipNode where
  node_id : String
  queue_url : String
  peers : List (String × PeerEntry)
  log : List String
deriving Repr

/-- GossipNode.__init__: an empty queue_url falls back to a fake URL. -/
def GossipNode.init (node_id queue_url : String) : GossipNode :=
  { node_id := node_id,
    queue_url := if queue_url = "" then "sqs://fake/" ++ node_id else queue_url,
    peers := [], log := [] }

/-- Insertion-ordered dict write: replace the binding in place if the
key exists, else append at the end. -/
def setPeer : List (String × PeerEntry) → String → PeerEntry →
    List (String × PeerEntry)
  | [], k, e => [(k, e)]
  | kv :: rest, k, e =>
    if kv.1 = k then (k, e) :: rest else kv :: setPeer rest k e

/-- Dict read, first match on the key. -/
def lookupPeer : List (String × PeerEntry) → String → Option PeerEntry
  | [], _ => none
  | kv :: rest, k => if kv.1 = k then some kv.2 else lookupPeer rest k

/-- Modelled from the spec: add_peer inserts a new entry with ttl 5 or
refreshes an existing entry's endpoint and TTL; calling it with the
node's own id is a no-op. -/
def add_peer (g : GossipNode) (nid qurl : String) (now : ℚ) : GossipNode :=
  if nid = g.node_id then g
  else { g with peers := setPeer g.peers nid ⟨nid, qurl, now, 5⟩ }

/-- Modelled from the spec: receive_peer_list merges the incoming list,
adding unknown peers with ttl 5 and refreshing the TTL of known ones,
ignores entries describing self, and counts the newly discovered peers. -/
def receive_peer_list : GossipNode → List (String × String) → ℚ → GossipNode × Int
  | g, [], _ => (g, 0)
  | g, p :: rest, now =>
    if p.1 = g.node_id then receive_peer_list g rest now
    else
      match lookupPeer g.peers p.1 with
      | some e =>
        receive_peer_list
          { g with peers := setPeer g.peers p.1 { e with ttl := 5 } } rest now
      | none =>
        let r := receive_peer_list
          { g with peers := setPeer g.peers p.1 ⟨p.1, p.2, now, 5⟩ } rest now
        (r.1, r.2 + 1)

/-- Modelled from the spec: age_entries decrements every entry's TTL by
one and removes the entries whose TTL dropped to zero or below. -/
def age_entries (g : GossipNode) : GossipNode :=
  let aged := g.peers.map (fun kv => (kv.1, { kv.2 with ttl := kv.2.ttl - 1 }))
  { g with peers := aged.filter (fun kv => ! is_expired kv.2) }

/-- GossipNode.known_peer_count, from the source: the size of the table. -/
def known_peer_count (g : GossipNode) : Nat := g.peers.length

/-- Number of non-expired entries of a peer table. -/
def countNonExpired (ps : List (String × PeerEntry)) : Nat :=
  (ps.filter (fun kv => ! is_expired kv.2)).length

/-- Gossip states reachable through the table operations. -/
inductive Reachable : GossipNode → Prop where
  | init (nid qurl : String) : Reachable (GossipNode.init nid qurl)
  | add (g : GossipNode) (h : Reachable g) (nid qurl : String) (now : ℚ) :
      Reachable (add_peer g nid qurl now)
  | recv (g : GossipNode) (h : Reachable g) (incoming : List (String × String))
      (now : ℚ) : Reachable (receive_peer_list g incoming now).1
  | age (g : GossipNode) (h : Reachable g) : Reachable (age_entries g)

/-- Table invariant: every entry is non-expired and no entry carries the
node's own id. -/
def GossipInv (g : GossipNode) : Prop :=
  ∀ kv ∈ g.peers, 0 < kv.2.ttl ∧ ¬ kv.1 = g.node_id

theorem setPeer_mem (ps : List (String × PeerEntry)) (k : String) (e : PeerEntry)
    (kv : String × PeerEntry) (h : kv ∈ setPeer ps k e) : kv = (k, e) ∨ kv ∈ ps := by
  induction ps with
  | nil =>
    simp only [setPeer, List.mem_singleton] at h
    exact Or.inl h
  | cons hd tl ih =>
    simp only [setPeer] at h
    by_cases hk : hd.1 = k
    · rw [if_pos hk] at h
      rcases List.mem_cons.mp h with h1 | h1
      · exact Or.inl h1
      · exact Or.inr (List.mem_cons_of_mem hd h1)
    · rw [if_neg hk] at h
      rcases List.mem_cons.mp h with h1 | h1
      · exact Or.inr (h1 ▸ List.mem_cons_self hd tl)
      · rcases ih h1 with h2 | h2
        · exact Or.inl h2
        · exact Or.inr (List.mem_cons_of_mem hd h2)

theorem add_peer_inv (g : GossipNode) (hg : GossipInv g) (nid qurl : String)
    (now : ℚ) : GossipInv (add_peer g nid qurl now) := by
  unfold add_peer
  by_cases hn : nid = g.node_id
  · rw [if_pos hn]
    exact hg
  · rw [if_neg hn]
    intro kv hkv
    rcases setPeer_mem g.peers nid ⟨nid, qurl, now, 5⟩ kv hkv with h1 | h1
    · rw [h1]
      exact ⟨by norm_num, hn⟩
    · exact hg kv h1

theorem receive_peer_list_inv (inc : List (String × String)) :
    ∀ (g : GossipNode) (now : ℚ), GossipInv g →
      GossipInv (receive_peer_list g inc now).1 := by
  induction inc with
  | nil =>
    intro g now hg
    exact hg
  | cons p rest ih =>
    intro g now hg
    simp only [receive_peer_list]
    by_cases hp : p.1 = g.node_id
    · rw [if_pos hp]
      exact ih g now hg
    · rw [if_neg hp]
      cases hl : lookupPeer g.peers p.1 with
      | some e =>
        refine ih _ now ?_
        intro kv hkv
        rcases setPeer_mem g.peers p.1 { e with ttl := 5 } kv hkv with h1 | h1
        · rw [h1]
          exact ⟨by norm_num, hp⟩
        · exact hg kv h1
      | none =>
        show GossipInv (receive_peer_list
          { g with peers := setPeer g.peers p.1 ⟨p.1, p.2, now, 5⟩ } rest now).1
        refine ih _ now ?_
        intro kv hkv
        rcases setPeer_mem g.peers p.1 ⟨p.1, p.2, now, 5⟩ kv hkv with h1 | h1
        · rw [h1]
          exact ⟨by norm_num, hp⟩
        · exact hg kv h1

theorem age_entries_inv (g : GossipNode) (hg : GossipInv g) :
    GossipInv (age_entries g) := by
  intro kv hkv
  simp only [age_entries, List.mem_filter, List.mem_map] at hkv
  obtain ⟨⟨kv0, hkv0, hmap⟩, hpred⟩ := hkv
  constructor
  · have : (! is_expired kv.2) = true := hpred
    simp only [is_expired, Bool.not_eq_true', decide_eq_false_iff_not] at this
    omega
  · rw [← hmap]
    exact (hg kv0 hkv0).2

theorem reachable_inv (g : GossipNode) (h : Reachable g) : GossipInv g := by
  induction h with
  | init nid qurl =>
    intro kv hkv
    simp [GossipNode.init] at hkv
  | add g h nid qurl now ih => exact add_peer_inv g ih nid qurl now
  | recv g h incoming now ih => exact receive_peer_list_inv incoming g now ih
  | age g h ih => exact age_entries_inv g ih

/-- Claim C3: in every reachable gossip state, known_peer_count equals the
number of non-expired table entries, and the node's own id is never a key
of the table. -/
theorem known_peer_count_invariant (g : GossipNode) (h : Reachable g) :
    known_peer_count g = countNonExpired g.peers ∧
    ∀ kv ∈ g.peers, ¬ kv.1 = g.node_id := by
  have hinv := reachable_inv g h
  constructor
  · unfold known_peer_count countNonExpired
    rw [List.filter_eq_self.mpr]
    intro kv hkv
    simp only [is_expired, Bool.not_eq_true', decide_eq_false_iff_not]
    have := (hinv kv hkv).1
    omega
  · exact fun kv hkv => (hinv kv hkv).2

/-- Concrete instance of the gossip invariant after an add and an age. -/
theorem known_peer_count_invariant_witness :
    known_peer_count (add_peer (GossipNode.init "hugo" "") "sam" "u" 0) =
      countNonExpired (add_peer (GossipNode.init "hugo" "") "sam" "u" 0).peers ∧
    ∀ kv ∈ (add_peer (GossipNode.init "hugo" "") "sam" "u" 0).peers,
      ¬ kv.1 = (add_peer (GossipNode.init "hugo" "") "sam" "u" 0).node_id :=
  known_peer_count_invariant _
    (Reachable.add _ (Reachable.init "hugo" "") "sam" "u" 0)

/-! ### Node runtime, from src/project1/node.py. Decoded messages are
dicts of JSON values; the eight per-type handlers are TODO stubs in the
source, so the dispatcher is parameterized over them. -/

/-- A decoded message dict. -/
abbrev Msg := List (String × JVal)

/-- ChokingNode state as stored by its constructor. -/
structure ChokingNode where
  node_id : String
  max_unchoked : Int
  optimistic_interval : Int
  peers : List (String × PeerTracker)
  round : Int
  optimistic_peer : Option String
  log : List String

/-- ReputationNode state as stored by its constructor. -/
structure ReputationNode where
  node_id : String
  peers : List (String × ReputationRecord)
  log : List String

/-- Log lines handle_message can emit. -/
inductive LogEvent where
  | recv (m : Msg)
  | unknownMsgType (mt : Option JVal)

/-- The P2PNode state handle_message can read or write. -/
structure NodeState where
  node_id : String
  verbose : Bool
  running : Bool
  gossip : GossipNode
  heartbeat : HeartbeatNode
  choking : ChokingNode
  reputation : ReputationNode
  messages_received : Int
  messages_sent : Int
  rounds : Int
  log : List LogEvent

/-- The eight type-specific handlers of P2PNode, each able to mutate the
state or raise. -/
structure HandlerSet where
  handle_hello : NodeState → Msg → Except String NodeState
  handle_peer_list : NodeState → Msg → Except String NodeState
  handle_ping : NodeState → Msg → Except String NodeState
  handle_pong : NodeState → Msg → Except String NodeState
  handle_view_event : NodeState → Msg → Except String NodeState
  handle_audit_result : NodeState → Msg → Except String NodeState
  handle_choke : NodeState → Msg → Except String NodeState
  handle_unchoke : NodeState → Msg → Except String NodeState

/-- The handlers dict lookup: handlers.get(msg_type), comparing the
decoded type value against the eight key strings. -/
def handlerFor (hs : HandlerSet) (mt : JVal) :
    Option (NodeState → Msg → Except String NodeState) :=
  if JVal.eqStr mt HELLO then some hs.handle_hello
  else if JVal.eqStr mt PEER_LIST then some hs.handle_peer_list
  else if JVal.eqStr mt PING then some hs.handle_ping
  else if JVal.eqStr mt PONG then some hs.handle_pong
  else if JVal.eqStr mt VIEW_EVENT then some hs.handle_view_event
  else if JVal.eqStr mt AUDIT_RESULT then some hs.handle_audit_result
  else if JVal.eqStr mt CHOKE then some hs.handle_choke
  else if JVal.eqStr mt UNCHOKE then some hs.handle_unchoke
  else none

/-- P2PNode.handle_message: drop self-echoes before counting, then
dispatch by type, logging unknown types instead of raising. -/
def handle_message (hs : HandlerSet) (s : NodeState) (m : Msg) :
    Except String NodeState :=
  if JVal.eqStr ((getField m ("sender")).getD (.str "?")) s.node_id then .ok s
  else
    match (getField m ("type")).bind (handlerFor hs) with
    | some h =>
      if s.verbose then
        h { s with messages_received := s.messages_received + 1,
                   log := s.log ++ [.recv m] } m
      else
        h { s with messages_received := s.messages_received + 1 } m
    | none =>
      .ok { s with messages_received := s.messages_received + 1,
                   log := s.log ++ [.unknownMsgType (getField m ("type"))] }

/-- Claim C4: a message whose sender equals the node's own id is dropped
before the receive counter and before any dispatch; handle_message
returns the state unchanged, whatever the eight handlers are. -/
theorem handle_message_self_echo (hs : HandlerSet) (s : NodeState) (m : Msg)
    (h : JVal.eqStr ((getField m ("sender")).getD (.str "?")) s.node_id = true) :
    handle_message hs s m = .ok s := by
  unfold handle_message
  rw [if_pos h]

theorem handlerFor_none (hs : HandlerSet) (mt : JVal)
    (h : ∀ t ∈ ALL_TYPES, JVal.eqStr mt t = false) : handlerFor hs mt = none := by
  have h1 := h HELLO (by simp [ALL_TYPES])
  have h2 := h PEER_LIST (by simp [ALL_TYPES])
  have h3 := h PING (by simp [ALL_TYPES])
  have h4 := h PONG (by simp [ALL_TYPES])
  have h5 := h VIEW_EVENT (by simp [ALL_TYPES])
  have h6 := h AUDIT_RESULT (by simp [ALL_TYPES])
  have h7 := h CHOKE (by simp [ALL_TYPES])
  have h8 := h UNCHOKE (by simp [ALL_TYPES])
  simp [handlerFor, h1, h2, h3, h4, h5, h6, h7, h8]

/-- Claim C9: a non-echo message of a type outside the eight known ones
bumps the receive counter, appends an unknown-type log line, raises
nothing and touches none of the four subsystem states. -/
theorem handle_message_unknown_type (hs : HandlerSet) (s : NodeState) (m : Msg)
    (mt : JVal) (hty : getField m ("type") = some mt)
    (hsend : JVal.eqStr ((getField m ("sender")).getD (.str "?")) s.node_id = false)
    (hunk : ∀ t ∈ ALL_TYPES, JVal.eqStr mt t = false) :
    ∃ s', handle_message hs s m = .ok s' ∧
      s'.messages_received = s.messages_received + 1 ∧
      s'.gossip = s.gossip ∧ s'.heartbeat = s.heartbeat ∧
      s'.choking = s.choking ∧ s'.reputation = s.reputation ∧
      s'.log = s.log ++ [.unknownMsgType (some mt)] := by
  have hmain : handle_message hs s m =
      .ok { s with messages_received := s.messages_received + 1,
                   log := s.log ++ [.unknownMsgType (some mt)] } := by
    unfold handle_message
    rw [hsend]
    rw [if_neg (by simp : ¬ (false = true))]
    rw [hty]
    rw [show (some mt).bind (handlerFor hs) = handlerFor hs mt from rfl]
    rw [handlerFor_none hs mt hunk]
  exact ⟨_, hmain, rfl, rfl, rfl, rfl, rfl, rfl⟩

/-- A quiescent node used to instantiate the dispatcher theorems. -/
def nodeA : NodeState :=
  { node_id := "hugo", verbose := false, running := true,
    gossip := GossipNode.init "hugo" "",
    heartbeat := { node_id := "hugo", miss_threshold := 3, grace_period := 2,
                   peers := [], log := [] },
    choking := { node_id := "hugo", max_unchoked := 4, optimistic_interval := 3,
                 peers := [], round := 0, optimistic_peer := none, log := [] },
    reputation := { node_id := "hugo", peers := [], log := [] },
    messages_received := 0, messages_sent := 0, rounds := 0, log := [] }

/-- Handlers that leave the state unchanged. -/
def idleHandlers : HandlerSet :=
  ⟨fun s _ => .ok s, fun s _ => .ok s, fun s _ => .ok s, fun s _ => .ok s,
   fun s _ => .ok s, fun s _ => .ok s, fun s _ => .ok s, fun s _ => .ok s⟩

/-- Concrete instance of the self-echo drop. -/
theorem handle_message_self_echo_witness :
    handle_message idleHandlers nodeA
      [("type", .str "PING"), ("sender", .str "hugo")] = .ok nodeA :=
  handle_message_self_echo idleHandlers nodeA
    [("type", .str "PING"), ("sender", .str "hugo")] (by decide)

/-- Concrete instance of the unknown-type handling. -/
theorem handle_message_unknown_type_witness :
    ∃ s', handle_message idleHandlers nodeA
        [("type", .str "GOSSIP"), ("sender", .str "sam")] = .ok s' ∧
      s'.messages_received = nodeA.messages_received + 1 ∧
      s'.gossip = nodeA.gossip ∧ s'.heartbeat = nodeA.heartbeat ∧
      s'.choking = nodeA.choking ∧ s'.reputation = nodeA.reputation ∧
      s'.log = nodeA.log ++ [.unknownMsgType (some (.str "GOSSIP"))] :=
  handle_message_unknown_type idleHandlers nodeA
    [("type", .str "GOSSIP"), ("sender", .str "sam")] (.str "GOSSIP")
    rfl (by decide) (by decide)

/-! ### The receive loop body of P2PNode.run: handle, then acknowledge -/

/-- Observable events of one pass over a received batch. -/
inductive RunEvent where
  | handled (m : Msg)
  | deleted (r : String)

/-- The receipt acknowledgment after a successful handle: msg.pop of
_receipt_handle followed by transport.delete when the receipt is truthy. -/
def ackEvents (m : Msg) (tail : List RunEvent) : List RunEvent :=
  match getField m ("_receipt_handle") with
  | some (.str r) => if r = "" then tail else .deleted r :: tail
  | _ => tail

/-- The for-loop of P2PNode.run over one received batch: each message is
handled, then acknowledged; a raising handler aborts the loop with the
exception and acknowledges nothing. The dispatcher is abstracted as the
per-message outcome of handle_message. -/
def processBatch (handler : Msg → Except String Unit) :
    List Msg → List RunEvent × Option String
  | [] => ([], none)
  | m :: rest =>
    match handler m with
    | .error e => ([], some e)
    | .ok _ =>
      let tail := processBatch handler rest
      (.handled m :: ackEvents m tail.1, tail.2)

/-- Event traces in which every delete follows, immediately, a
non-raising handle of the message whose receipt it acknowledges. -/
inductive AckDisciplined (handler : Msg → Except String Unit) :
    List RunEvent → Prop where
  | nil : AckDisciplined handler []
  | handled_only (m : Msg) (evs : List RunEvent) (hok : handler m = .ok ())
      (h : AckDisciplined handler evs) :
      AckDisciplined handler (.handled m :: evs)
  | handled_deleted (m : Msg) (r : String) (evs : List RunEvent)
      (hok : handler m = .ok ())
      (hr : getField m ("_receipt_handle") = some (.str r)) (hne : ¬ r = "")
      (h : AckDisciplined handler evs) :
      AckDisciplined handler (.handled m :: .deleted r :: evs)

theorem ack_step (handler : Msg → Except String Unit) (m : Msg)
    (evs : List RunEvent) (hok : handler m = .ok ())
    (h : AckDisciplined handler evs) :
    AckDisciplined handler (.handled m :: ackEvents m evs) := by
  unfold ackEvents
  cases hgf : getField m ("_receipt_handle") with
  | none => exact .handled_only m evs hok h
  | some v =>
    cases v with
    | str r =>
      show AckDisciplined handler
        (.handled m :: if r = "" then evs else .deleted r :: evs)
      by_cases hr : r = ""
      · rw [if_pos hr]
        exact .handled_only m evs hok h
      · rw [if_neg hr]
        exact .handled_deleted m r evs hok hgf hr h
    | int n => exact .handled_only m evs hok h
    | dec a b => exact .handled_only m evs hok h
    | bool b => exact .handled_only m evs hok h
    | null => exact .handled_only m evs hok h
    | arr xs => exact .handled_only m evs hok h
    | obj fs => exact .handled_only m evs hok h

theorem mem_ackEvents (m : Msg) (tail : List RunEvent) (ev : RunEvent)
    (h : ev ∈ ackEvents m tail) :
    ev ∈ tail ∨ ∃ r, ev = .deleted r ∧
      getField m ("_receipt_handle") = some (.str r) ∧ ¬ r = "" := by
  revert h
  unfold ackEvents
  cases hgf : getField m ("_receipt_handle") with
  | none => exact fun h => Or.inl h
  | some v =>
    cases v with
    | str r =>
      show (ev ∈ if r = "" then tail else .deleted r :: tail) → _
      by_cases hr : r = ""
      · rw [if_pos hr]
        exact fun h => Or.inl h
      · rw [if_neg hr]
        intro h
        rcases List.mem_cons.mp h with h1 | h1
        · exact Or.inr ⟨r, h1, rfl, hr⟩
        · exact Or.inl h1
    | int n => exact fun h => Or.inl h
    | dec a b => exact fun h => Or.inl h
    | bool b => exact fun h => Or.inl h
    | null => exact fun h => Or.inl h
    | arr xs => exact fun h => Or.inl h
    | obj fs => exact fun h => Or.inl h

/-- Claim C5: over any received batch, every transport.delete happens
immediately after handle_message returned without raising on the message
holding that receipt; a message on which the handler raises is never
acknowledged (its receipt being unique in the batch). -/
theorem run_ack_after_handle (handler : Msg → Except String Unit)
    (msgs : List Msg) :
    AckDisciplined handler (processBatch handler msgs).1 ∧
    ∀ m ∈ msgs, ∀ e, handler m = .error e →
      ∀ r, getField m ("_receipt_handle") = some (.str r) →
      (∀ m2 ∈ msgs, getField m2 ("_receipt_handle") = some (.str r) → m2 = m) →
      RunEvent.deleted r ∉ (processBatch handler msgs).1 := by
  induction msgs with
  | nil =>
    refine ⟨AckDisciplined.nil, ?_⟩
    intro m hm
    simp at hm
  | cons m0 rest ih =>
    constructor
    · simp only [processBatch]
      cases hh : handler m0 with
      | error e => exact AckDisciplined.nil
      | ok u =>
        cases u
        exact ack_step handler m0 (processBatch handler rest).1 hh ih.1
    · intro m hm e he r hrcpt huniq
      simp only [processBatch]
      cases hh : handler m0 with
      | error e0 =>
        intro hmem
        simp at hmem
      | ok u =>
        cases u
        intro hmem
        rcases List.mem_cons.mp hmem with h1 | h1
        · exact absurd h1 (by simp)
        · have hm0ne : ¬ m = m0 := by
            intro heq
            rw [heq, hh] at he
            exact absurd he (by simp)
          have hmrest : m ∈ rest := by
            rcases List.mem_cons.mp hm with h2 | h2
            · exact absurd h2 hm0ne
            · exact h2
          rcases mem_ackEvents m0 (processBatch handler rest).1 _ h1 with h2 | h2
          · exact (ih.2 m hmrest e he r hrcpt
              (fun m2 hm2 hg => huniq m2 (List.mem_cons_of_mem m0 hm2) hg)) h2
          · obtain ⟨r2, hr2, hg2, hne2⟩ := h2
            have hrr : r2 = r := by
              injection hr2 with h3
              exact h3.symm
            rw [hrr] at hg2
            have := huniq m0 (List.mem_cons_self m0 rest) hg2
            exact hm0ne this.symm

/-- Concrete instance of the acknowledgment discipline: the second
message's handler raises and its receipt is never deleted. -/
theorem run_ack_after_handle_witness :
    AckDisciplined
      (fun m => if JVal.eqStr ((getField m ("type")).getD .null) "BAD"
        then .error "boom" else .ok ())
      (processBatch
        (fun m => if JVal.eqStr ((getField m ("type")).getD .null) "BAD"
          then .error "boom" else .ok ())
        [[("type", .str "PING"), ("_receipt_handle", .str "r1")],
         [("type", .str "BAD"), ("_receipt_handle", .str "r2")]]).1 ∧
    RunEvent.deleted "r2" ∉
      (processBatch
        (fun m => if JVal.eqStr ((getField m ("type")).getD .null) "BAD"
          then .error "boom" else .ok ())
        [[("type", .str "PING"), ("_receipt_handle", .str "r1")],
         [("type", .str "BAD"), ("_receipt_handle", .str "r2")]]).1 :=
  ⟨(run_ack_after_handle _ _).1,
   (run_ack_after_handle _
      [[("type", .str "PING"), ("_receipt_handle", .str "r1")],
       [("type", .str "BAD"), ("_receipt_handle", .str "r2")]]).2
     [("type", .str "BAD"), ("_receipt_handle", .str "r2")] (by simp)
     "boom" rfl "r2" rfl
     (by
       intro m2 hm2 hg
       rcases List.mem_cons.mp hm2 with h1 | h1
       · rw [h1] at hg
         exact absurd hg (by simp [getField])
       · rcases List.mem_cons.mp h1 with h2 | h2
         · exact h2
         · simp at h2)⟩

end P2P
